import Mathlib

/-!
Verification of `biome-data` (`src/biome/data/sources/utils.py`,
`src/biome/data/sources/datasource.py`, `src/biome/data/sources/readers.py`).

The Python code manipulates pandas/dask dataframes whose cells hold arbitrary
Python values (scalars, `None`/`NaN`, dicts, lists).  We embed such values as
the inductive type `Value`, a dataframe as a list of named columns of equal
length (`DF`), and translate each Python function into a Lean function over
this model.  Fallible code returns `Except PyErr`; the laziness of dask is
collapsed except where a claim depends on it (the mapped-dataframe view keeps
the graph-construction phase separate from the compute phase, mirroring which
errors dask raises eagerly and which only at compute time).

Library calls (`pd.DataFrame(...)`, `.to_dict(orient="list")`, `pd.concat`,
`os.path.*`, `str.lower/strip/replace`) are modelled from their documented
behaviour on the shapes of data this repository feeds them; each model says in
its doc comment which call it stands for.
-/

namespace BiomeData

/-- A Python runtime value held in a dataframe cell or a configuration entry:
`na` is a missing value (`None`/`NaN`), `prim` an atomic scalar (modelled by a
string payload), `dict` a Python dict (insertion-ordered key/value pairs) and
`vlist` a Python list. -/
inductive Value where
  | na : Value
  | prim : String → Value
  | dict : List (String × Value) → Value
  | vlist : List Value → Value

mutual

/-- Nesting depth of a value: scalars and missing values have depth 0, a dict
or list is one deeper than its deepest member (an empty dict or list has
depth 1). -/
def Value.depth : Value → Nat
  | .na => 0
  | .prim _ => 0
  | .dict fs => 1 + Value.fieldsDepth fs
  | .vlist es => 1 + Value.listDepth es

/-- Maximal depth of the values of a field list. -/
def Value.fieldsDepth : List (String × Value) → Nat
  | [] => 0
  | f :: rest => max (Value.depth f.2) (Value.fieldsDepth rest)

/-- Maximal depth of the elements of a value list. -/
def Value.listDepth : List Value → Nat
  | [] => 0
  | v :: rest => max (Value.depth v) (Value.listDepth rest)

end

/-- Python truthiness of a cell value: `None` (and the missing marker), empty
strings, empty dicts and empty lists are falsy. -/
def Value.falsy : Value → Bool
  | .na => true
  | .prim s => s == ""
  | .dict fs => fs.isEmpty
  | .vlist es => es.isEmpty

/-- A dataframe: a row count and an ordered list of named columns, each column
holding one cell per row.  The (pandas) row index is kept positional. -/
structure DF where
  nrows : Nat
  cols : List (String × List Value)

/-- Well-formedness: every column holds exactly `nrows` cells. -/
def DF.wf (df : DF) : Bool :=
  df.cols.all fun c => c.2.length == df.nrows

/-- Maximal nesting depth over all cells of the dataframe. -/
def DF.depth (df : DF) : Nat :=
  df.cols.foldr (fun c acc => max (Value.listDepth c.2) acc) 0

/-- Whether a cell is the missing value. -/
def Value.isna : Value → Bool
  | .na => true
  | _ => false

/-- Model of `Series.dropna()`: the cells that are not missing. -/
def dropna (cells : List Value) : List Value :=
  cells.filter fun v => ¬v.isna

/-- `is_list_of_structured_data` from `_columns_analysis`
(`sources/utils.py`): a list at least one of whose elements is a dict or a
list. -/
def is_list_of_structured_data : Value → Bool
  | .vlist es =>
      es.any fun e =>
        match e with
        | .dict _ => true
        | .vlist _ => true
        | _ => false
  | _ => false

/-- First non-missing cell of a column (`column_data.iloc[0]` after
`dropna()`, `None` when the column is empty). -/
def firstElement (cells : List Value) : Option Value :=
  (dropna cells).head?

/-- The three buckets `_columns_analysis` sorts a column into. -/
inductive CClass where
  | cdict : CClass
  | clist : CClass
  | cunmod : CClass
deriving DecidableEq

/-- Classification of one column, following the branch order of
`_columns_analysis`: dict first non-missing value → `cdict`, else a
structured list → `clist`, else (including an all-missing or empty column)
`cunmod`. -/
def classify (cells : List Value) : CClass :=
  match firstElement cells with
  | some (.dict _) => .cdict
  | some e => if is_list_of_structured_data e then .clist else .cunmod
  | none => .cunmod

/-- `_columns_analysis` (`sources/utils.py`): split the columns into the
dict-valued, list-of-structured and unmodified buckets, each in column order.
The source collects the column *names* and re-indexes the frame by name; we
return the named columns themselves, which is what that indexing retrieves
(column names are unique in every frame the claims quantify over). -/
def columns_analysis (df : DF) :
    List (String × List Value) × List (String × List Value) ×
      List (String × List Value) :=
  (df.cols.filter fun c => classify c.2 == CClass.cdict,
   df.cols.filter fun c => classify c.2 == CClass.clist,
   df.cols.filter fun c => classify c.2 == CClass.cunmod)

/-- The base-case test of `flatten_dataframe`:
`len(data_frame.columns) == len(unmodified_columns)`. -/
def isFlat (df : DF) : Bool :=
  (columns_analysis df).2.2.length == df.cols.length

/-- The Python exceptions this code can raise. -/
inductive PyErr where
  | valueError : String → PyErr
  | typeError : String → PyErr
  | attributeError : String → PyErr
  | keyError : String → PyErr
  | indexError : String → PyErr
deriving DecidableEq

/-- First-match lookup in a field list (Python dict indexing; real Python
dicts never hold a duplicate key). -/
def lookupv (fs : List (String × Value)) (k : String) : Option Value :=
  match fs.find? fun p => p.1 == k with
  | some p => some p.2
  | none => none

/-- Append a key if it is not present yet. -/
def insertNew (ks : List String) (k : String) : List String :=
  if k ∈ ks then ks else ks ++ [k]

/-- Union of the keys of a list of records, in order of first appearance
(how pandas assembles the columns of a frame built from a list of dicts). -/
def keysUnion (recs : List (List (String × Value))) : List String :=
  recs.foldl (fun acc r => r.foldl (fun a kv => insertNew a kv.1) acc) []

/-- Extract the field lists when every row is a dict, `none` otherwise. -/
def allDicts : List Value → Option (List (List (String × Value)))
  | [] => some []
  | .dict fs :: rest =>
      match allDicts rest with
      | some rs => some (fs :: rs)
      | none => none
  | _ => none

/-- Model of `pd.DataFrame(data=recs, index=idx)` for `recs` a list of
records, keeping the given index: an empty data list yields a zero-column
frame over the index, a data list of the wrong length raises `ValueError`,
otherwise the columns are the key union with `NaN` filling missing keys. -/
def pdRecordsFromAssocs (nrows : Nat) (recs : List (List (String × Value))) :
    Except PyErr DF :=
  if recs.isEmpty then .ok ⟨nrows, []⟩
  else if recs.length ≠ nrows then
    .error (.valueError "Shape of passed values does not match indices")
  else
    .ok ⟨nrows,
      (keysUnion recs).map fun k =>
        (k, recs.map fun r => (lookupv r k).getD Value.na)⟩

/-- Model of `pd.DataFrame(data=rows, index=idx)` for `rows` a Python list:
pandas dispatches on the first element; when it is a dict every row must be a
dict (a non-dict row raises `AttributeError` while the keys are gathered),
and a length mismatch with the index raises `ValueError`. -/
def pdRecordsFromValues (nrows : Nat) (rows : List Value) : Except PyErr DF :=
  match allDicts rows with
  | none => .error (.attributeError "object has no attribute keys")
  | some recs => pdRecordsFromAssocs nrows recs

/-- The record pivot at the heart of `_dict_to_list`:
`pd.DataFrame(recs).to_dict(orient="list")` for a list of records — every key
of any record maps to the ordered list of per-record values at that key,
missing keys filled with `NaN`. -/
def pivotRecords (recs : List (List (String × Value))) :
    List (String × Value) :=
  (keysUnion recs).map fun k =>
    (k, Value.vlist (recs.map fun r => (lookupv r k).getD Value.na))

/-- True when every element is a list; returns the element lists. -/
def allVlists : List Value → Option (List (List Value))
  | [] => some []
  | .vlist es :: rest =>
      match allVlists rest with
      | some rs => some (es :: rs)
      | none => none
  | _ => none

/-- True when every element is a scalar or missing. -/
def allScalarLike (rows : List Value) : Bool :=
  rows.all fun v =>
    match v with
    | .na => true
    | .prim _ => true
    | _ => false

/-- Maximum length of a list of lists. -/
def maxLen (ls : List (List Value)) : Nat :=
  ls.foldr (fun l acc => max l.length acc) 0

/-- Positional pivot: `pd.DataFrame(list_of_lists).to_dict(orient="list")` —
columns are the positions `0 .. maxlen-1` (pandas uses integer labels; the
caller immediately stringifies them in an f-string, so we stringify here),
ragged rows filled with `NaN`. -/
def pivotPositional (ls : List (List Value)) : List (String × Value) :=
  (List.range (maxLen ls)).map fun i =>
    (toString i, Value.vlist (ls.map fun l => (l.get? i).getD Value.na))

/-- `_dict_to_list` (`sources/utils.py`) together with the
`pd.DataFrame(row).to_dict(orient="list")` call it makes.  The source loop
`for row_i in row: if isinstance(row_i, list): row = row_i` rebinds `row` to
the *last* list element of the original list (iteration stays on the original
object).  `ValueError`/`TypeError` are caught and yield `None` (`.ok none`);
an `AttributeError` from a mixed record list propagates (`.error`).
Scalars and strings fail to build a frame (caught); a dict row builds a frame
directly from its values when they are lists of equal length (pandas
broadcast of scalar members in a partly-list dict is not modelled — no
theorem below routes through that corner). -/
def dict_to_list (row : Value) : Except PyErr (Option (List (String × Value))) :=
  match row with
  | .na => .ok none
  | .prim _ => .ok none
  | .dict fs =>
      match allVlists (fs.map fun p => p.2) with
      | some ls =>
          if ls.all fun l => l.length == maxLen ls then .ok (some fs)
          else .ok none
      | none => .ok none
  | .vlist elems =>
      let row' :=
        match (elems.filterMap fun e =>
            match e with
            | .vlist es => some es
            | _ => none).getLast? with
        | some es => es
        | none => elems
      match row' with
      | [] => .ok (some [])
      | .dict _ :: _ =>
          match allDicts row' with
          | some recs => .ok (some (pivotRecords recs))
          | none => .error (.attributeError "object has no attribute keys")
      | .vlist _ :: _ =>
          match allVlists row' with
          | some ls => .ok (some (pivotPositional ls))
          | none => .ok none
      | _ =>
          if allScalarLike row' then
            .ok (some [("0", Value.vlist row')])
          else .ok none

/-- `data_frame[column].apply(_dict_to_list)`: apply to every cell,
propagating an uncaught exception. -/
def applyDictToList :
    List Value → Except PyErr (List (Option (List (String × Value))))
  | [] => .ok []
  | c :: cs => do
      let d ← dict_to_list c
      let rest ← applyDictToList cs
      .ok (d :: rest)

/-- Prepend a parent prefix to every column name
(`column_df.columns = [f"..." for ...]`). -/
def prefixedCols (p : String) (df : DF) : DF :=
  ⟨df.nrows, df.cols.map fun c => (p ++ c.1, c.2)⟩

/-- One iteration of the `for column in list_columns` loop of
`flatten_dataframe`: pivot every row, keep only the truthy results
(`if data` drops both `None` and empty dicts), build the frame over the
original index and rename with the `<name>.*.<key>` scheme. -/
def listColumnDF (nrows : Nat) (name : String) (cells : List Value) :
    Except PyErr DF := do
  let piv ← applyDictToList cells
  let data := (piv.filterMap id).filter fun d => ¬d.isEmpty
  let cdf ← pdRecordsFromAssocs nrows data
  .ok (prefixedCols (name ++ ".*.") cdf)

/-- One iteration of the `for column in dict_columns` loop of
`flatten_dataframe`: falsy cells become empty dicts
(`data if data else {}`), the rows feed `pd.DataFrame` over the original
index, and columns are renamed with the `<name>.<key>` scheme. -/
def dictColumnDF (nrows : Nat) (name : String) (cells : List Value) :
    Except PyErr DF := do
  let data := cells.map fun v => if v.falsy then Value.dict [] else v
  let cdf ← pdRecordsFromValues nrows data
  .ok (prefixedCols (name ++ ".") cdf)

/-- Build the per-column frames for a bucket. -/
def buildColumnDfs (f : Nat → String → List Value → Except PyErr DF)
    (nrows : Nat) :
    List (String × List Value) → Except PyErr (List DF)
  | [] => .ok []
  | c :: cs => do
      let d ← f nrows c.1 c.2
      let rest ← buildColumnDfs f nrows cs
      .ok (d :: rest)

/-- `pd.concat(dfs, axis=1)` for frames sharing the original index. -/
def concatAll (nrows : Nat) (dfs : List DF) : DF :=
  ⟨nrows, (dfs.map DF.cols).flatten⟩

/-- The new columns produced by one level of `flatten_dataframe`: the
list-bucket frames followed by the dict-bucket frames (the source appends to
`dfs` in that order) concatenated side by side. -/
def flattenNew (df : DF) : Except PyErr DF := do
  let a := columns_analysis df
  let ldfs ← buildColumnDfs listColumnDF df.nrows a.2.1
  let ddfs ← buildColumnDfs dictColumnDF df.nrows a.1
  .ok (concatAll df.nrows (ldfs ++ ddfs))

/-- The final concatenation of one `flatten_dataframe` call:
`pd.concat([data_frame[unmodified_columns], flatten], axis=1)`. -/
def flattenCombine (df fl : DF) : DF :=
  concatAll df.nrows [⟨df.nrows, (columns_analysis df).2.2⟩, fl]

/-- Thread the outcome of the recursive flatten call into the final
concatenation (exceptions and an exhausted bound pass through). -/
def flattenGlue (df : DF) : Option (Except PyErr DF) →
    Option (Except PyErr DF)
  | none => none
  | some (.error e) => some (.error e)
  | some (.ok fl) => some (.ok (flattenCombine df fl))

/-- The recursion of `flatten_dataframe`, indexed by a recursion-depth bound
(the Python function recurses without a bound; the bound `df.depth` is proved
below to always suffice, so the `none` branch is unreachable from
`flatten_dataframe`).  When the frame is not already flat:
expand the structured columns, recurse on their concatenation and append the
result to the untouched columns. -/
def flattenAux : Nat → DF → Option (Except PyErr DF)
  | fuel, df =>
    if isFlat df then some (.ok df)
    else
      match fuel with
      | 0 => none
      | fuel + 1 =>
          match flattenNew df with
          | .error e => some (.error e)
          | .ok nd => flattenGlue df (flattenAux fuel nd)

/-- `flatten_dataframe` (`sources/utils.py`).  The default branch is
provably unreachable (the recursion bound `df.depth` always suffices). -/
def flatten_dataframe (df : DF) : Except PyErr DF :=
  (flattenAux df.depth df).getD
    (.error (.valueError "unreachable: recursion bound exceeded"))

/-! ## Format registry and reader dispatch (`sources/datasource.py`) -/

/-- The reader functions of `sources/readers.py`, as abstract tags (their
dataframe-producing bodies are ecosystem glue no claim depends on);
`custom` stands for a reader registered at runtime. -/
inductive Reader where
  | from_excel : Reader
  | from_csv : Reader
  | from_json : Reader
  | from_parquet : Reader
  | from_elasticsearch : Reader
  | custom : Nat → Reader
deriving DecidableEq

/-- Default keyword parameters registered with a reader, as name/value
pairs. -/
abbrev Params := List (String × String)

/-- `DataSource.SUPPORTED_FORMATS`: a Python dict from format key to
`(reader, default parameters)`, insertion ordered. -/
abbrev Registry := List (String × (Reader × Params))

/-- Python dict lookup in the registry. -/
def regGet (reg : Registry) (k : String) : Option (Reader × Params) :=
  match reg.find? fun p => p.1 == k with
  | some p => some p.2
  | none => none

/-- Python dict assignment `cls.SUPPORTED_FORMATS[format_key] = ...`:
update in place when present, append otherwise. -/
def regSet (reg : Registry) (k : String) (v : Reader × Params) : Registry :=
  if (reg.find? fun p => p.1 == k).isSome then
    reg.map fun p => if p.1 == k then (p.1, v) else p
  else reg ++ [(k, v)]

/-- Modelled from the spec: `ElasticsearchDataFrameReader.SOURCE_TYPE`.  The
class is absent from `src/` (the checked-in `readers.py` is an older revision
exposing `from_elasticsearch` only); the spec names the non-file backend key
"elasticsearch". -/
def ElasticsearchDataFrameReader.SOURCE_TYPE : String := "elasticsearch"

/-- The initial `DataSource.SUPPORTED_FORMATS` table. -/
def SUPPORTED_FORMATS : Registry :=
  [("xls", (.from_excel,
      [("na_filter", "False"), ("keep_default_na", "False"),
       ("dtype", "str")])),
   ("xlsx", (.from_excel,
      [("na_filter", "False"), ("keep_default_na", "False"),
       ("dtype", "str")])),
   ("csv", (.from_csv,
      [("assume_missing", "False"), ("na_filter", "False"),
       ("dtype", "str")])),
   ("json", (.from_json, [])),
   ("jsonl", (.from_json, [])),
   ("json-l", (.from_json, [])),
   ("parquet", (.from_parquet, [])),
   (ElasticsearchDataFrameReader.SOURCE_TYPE, (.from_elasticsearch, []))]

/-- `DataSource.add_supported_format`: registers (or overwrites, after a
logged warning) the key as given, with `default_params or {}`. -/
def add_supported_format (reg : Registry) (format_key : String)
    (readerFn : Reader) (default_params : Option Params) : Registry :=
  regSet reg format_key (readerFn, default_params.getD [])

/-- Python `str.lower()` (ASCII case mapping, character-wise). -/
def pyLower (s : String) : String :=
  ⟨s.data.map Char.toLower⟩

/-- Python whitespace as recognised by `str.strip()`. -/
def pyIsSpace (c : Char) : Bool :=
  c == ' ' || c == '\t' || c == '\n' || c == '\r' || c == '\x0b' || c == '\x0c'

/-- Python `str.strip()`: remove leading and trailing whitespace. -/
def pyStrip (s : String) : String :=
  ⟨((s.data.dropWhile pyIsSpace).reverse.dropWhile pyIsSpace).reverse⟩

/-- `DataSource._find_reader`: normalise the key with `.lower().strip()` and
look it up; a miss raises the descriptive `TypeError`, while a `None` format
raises `AttributeError` from `None.lower()` (not caught by the
`except KeyError`). -/
def _find_reader (reg : Registry) (source_format : Option String) :
    Except PyErr (Reader × Params) :=
  match source_format with
  | none => .error (.attributeError "NoneType object has no attribute lower")
  | some f =>
      match regGet reg (pyStrip (pyLower f)) with
      | some rp => .ok rp
      | none =>
          .error (.typeError ("Format " ++ f ++
            " not supported. Supported formats are: " ++
            String.intercalate ", " (reg.map fun p => p.1)))

/-! ## Path helpers (`sources/utils.py`) -/

/-- Index just after the last occurrence of `c`, or 0. -/
def afterLastIdx (c : Char) (cs : List Char) : Nat :=
  match cs.reverse.indexOf? c with
  | some i => cs.length - i
  | none => 0

/-- Index of the last occurrence of `c`, if any. -/
def lastIdx (c : Char) (cs : List Char) : Option Nat :=
  match cs.reverse.indexOf? c with
  | some i => some (cs.length - 1 - i)
  | none => none

/-- Model of `os.path.splitext` (posix): split off the extension beginning at
the last dot of the final path component, unless that component consists only
of leading dots up to it. -/
def pySplitext (p : String) : String × String :=
  let cs := p.data
  match lastIdx '.' cs with
  | none => (p, "")
  | some d =>
      let fstart := afterLastIdx '/' cs
      if fstart ≤ d ∧ ((cs.drop fstart).take (d - fstart)).any (· ≠ '.') then
        (⟨cs.take d⟩, ⟨cs.drop d⟩)
      else (p, "")

/-- `extension_from_path` (`sources/utils.py`): the extension of the first
path, lowercased, without the leading dot.  The source accepts a string or a
list and uses `path[0]`; an empty list would raise in Python and never occurs
here. -/
def extension_from_path (path : List String) : String :=
  match path with
  | p :: _ => (pyLower (pySplitext p).2).drop 1
  | [] => ""

/-- Python `str.startswith` (computable prefix test on the characters). -/
def pyStartsWith (s p : String) : Bool :=
  p.data.isPrefixOf s.data

/-- Python `str.endswith` (computable suffix test on the characters). -/
def pyEndsWith (s p : String) : Bool :=
  p.data.isSuffixOf s.data

/-- The URI scheme prefixes `is_relative_file_system_path` recognises. -/
def uriSchemes : List String :=
  ["http://", "https://", "ftp://", "sftp://", "s3://", "hdfs://", "gs://"]

/-- `is_relative_file_system_path` (`sources/utils.py`) on a string (the
source returns `False` outright for non-strings; call sites below dispatch on
the value shape first): requires a file extension, no recognised URI scheme,
and a non-absolute (posix) path. -/
def is_relative_file_system_path (s : String) : Bool :=
  if extension_from_path [s] == "" then false
  else if uriSchemes.any fun sc => pyStartsWith (pyLower s) sc then false
  else if pyStartsWith s "/" then false
  else true

/-- Model of posix `os.path.join` on two components. -/
def pyJoin (a b : String) : String :=
  if pyStartsWith b "/" then b
  else if a = "" ∨ pyEndsWith a "/" then a ++ b
  else a ++ "/" ++ b

/-- A value in a YAML configuration dictionary: a string, some other scalar,
a nested dictionary, or a list. -/
inductive Cfg where
  | str : String → Cfg
  | other : Cfg
  | dict : List (String × Cfg) → Cfg
  | list : List Cfg → Cfg

/-- The element-wise rewrite the list branch of `make_paths_relative`
applies (non-strings are left unchanged, spelled out per constructor). -/
def mprListElem (dirname : String) (e : Cfg) : Cfg :=
  match e with
  | .str s =>
      if is_relative_file_system_path s then .str (pyJoin dirname s) else .str s
  | .other => .other
  | .dict fs => .dict fs
  | .list es => .list es

mutual

/-- `make_paths_relative` (`sources/utils.py`).  The source mutates
`cfg_dict` in place; we return the updated dictionary.  Order of operations
per entry, as in the source: recurse into a dict value first, then skip the
entry when `path_keys` is non-empty and does not contain the key, then
rewrite a relative-path string value, then rewrite list elements
element-wise.  Note there is no recursion into dicts that sit inside
lists. -/
def make_paths_relative (dirname : String) (path_keys : List String) :
    List (String × Cfg) → List (String × Cfg)
  | [] => []
  | (k, v) :: rest =>
      mprEntry dirname path_keys k v ::
        make_paths_relative dirname path_keys rest

/-- One entry of the `make_paths_relative` loop (the cases leaving a value
unchanged are spelled out per constructor). -/
def mprEntry (dirname : String) (path_keys : List String) (k : String)
    (v : Cfg) : String × Cfg :=
  let v' :=
    match v with
    | .dict fs => Cfg.dict (make_paths_relative dirname path_keys fs)
    | .str s => Cfg.str s
    | .list es => Cfg.list es
    | .other => Cfg.other
  if ¬path_keys.isEmpty ∧ k ∉ path_keys then (k, v')
  else
    match v' with
    | .str s =>
        if is_relative_file_system_path s then (k, .str (pyJoin dirname s))
        else (k, .str s)
    | .list es => (k, .list (es.map (mprListElem dirname)))
    | .dict fs => (k, .dict fs)
    | .other => (k, .other)

end

/-- The `path_keys` that `DataSource.from_yaml` passes. -/
def defaultPathKeys : List String :=
  ["path", "metadata_file"]

/-- Python dict lookup in a configuration dictionary. -/
def cfgGet (fs : List (String × Cfg)) (k : String) : Option Cfg :=
  match fs.find? fun p => p.1 == k with
  | some p => some p.2
  | none => none

/-- Follow a chain of keys through nested configuration *dictionaries* (the
notion of nesting depth `make_paths_relative` recurses along). -/
def lookupPath : List String → List (String × Cfg) → Option Cfg
  | [], _ => none
  | [k], fs => cfgGet fs k
  | k :: rest, fs =>
      match cfgGet fs k with
      | some (.dict fs') => lookupPath rest fs'
      | _ => none

/-- What `make_paths_relative` does to the value of a recognised path key. -/
def transformLeaf (dirname : String) (path_keys : List String) : Cfg → Cfg
  | .str s =>
      if is_relative_file_system_path s then .str (pyJoin dirname s)
      else .str s
  | .list es => .list (es.map (mprListElem dirname))
  | .dict fs => .dict (make_paths_relative dirname path_keys fs)
  | .other => .other

/-! ## `DataSource.__init__` reader selection (`sources/datasource.py`) -/

/-- Python truthiness of the optional `format` argument. -/
def optFormatFalsy : Option String → Bool
  | none => true
  | some s => s == ""

/-- Python truthiness of the optional `source` argument (a path or list of
paths; a single string is represented as a singleton list, as
`__format_from_source` immediately wraps it). -/
def sourceTruthy : Option (List String) → Bool
  | none => false
  | some l => ¬l.isEmpty

/-- `DataSource.__format_from_source`: per path, the extension without its
dot if there is one, else the root; the de-duplicated set must be a
singleton, else the homogeneity `TypeError`. -/
def format_from_source (source : List String) : Except PyErr String :=
  let formats := source.map fun src =>
    let se := pySplitext src
    if se.2 = "" then se.1 else se.2.drop 1
  match formats.dedup with
  | [f] => .ok f
  | fs => .error (.typeError ("source must be homogeneous: " ++
      String.intercalate ", " fs))

/-- The format/reader selection prefix of `DataSource.__init__`:
`if not format and source: format = self.__format_from_source(source)`
followed by `self._find_reader(format)`. -/
def dataSourceSelectReader (reg : Registry) (source : Option (List String))
    (format : Option String) : Except PyErr (Reader × Params) := do
  let format ←
    if optFormatFalsy format ∧ sourceTruthy source then do
      let f ← format_from_source (source.getD [])
      pure (some f)
    else pure format
  _find_reader reg format

/-- `DataSource.__init__` up to and including the reader call: select the
reader, then invoke it (`runReader` stands for the chosen source reader
applied to its merged arguments; the subsequent dropna/rename/set-index
post-processing of the returned frame is irrelevant to the claims about the
failure path). -/
def dataSourceInit (reg : Registry) (source : Option (List String))
    (format : Option String) (runReader : Reader → Params → Except PyErr DF) :
    Except PyErr DF := do
  let rp ← dataSourceSelectReader reg source format
  runReader rp.1 rp.2

/-! ## Mapping projection (`sources/datasource.py`) -/

/-- A value of the `mapping` dict: a single source column name or a list of
them (`Union[List[str], str]`; the `int` column-name case is subsumed by
strings here). -/
inductive MapTargets where
  | single : String → MapTargets
  | multi : List String → MapTargets

/-- The `isinstance(data_features, (str, int))` wrap:
normalise to a list of source column names. -/
def targetsAsList : MapTargets → List String
  | .single s => [s]
  | .multi ss => ss

/-- The caller-supplied mapping: logical field name to source columns
(a Python dict: insertion ordered, keys unique). -/
abbrev Mapping := List (String × MapTargets)

/-- Column names of a frame. -/
def DF.names (df : DF) : List String :=
  df.cols.map fun c => c.1

/-- The cells of the first column with the given name (pandas name
indexing; names are unique in the frames under study). -/
def getCol (df : DF) (name : String) : List Value :=
  match df.cols.find? fun c => c.1 == name with
  | some c => c.2
  | none => []

/-- The `ValueError` message for a missing mapping. -/
def needMappingMsg : String :=
  "For a mapped DataFrame you need to specify a mapping!"

/-- The `KeyError` message naming the source columns of the offending
mapping entry. -/
def didNotFindMsg (feats : List String) : String :=
  "Did not find " ++ String.intercalate ", " feats ++ " in the data source!"

/-- The lazy mapped view `to_mapped_dataframe` returns: the source frame and
the validated (logical name, source columns) pairs.  Dask records the
row-wise `apply` in the graph without running it, so only graph-construction
errors can escape `to_mapped_dataframe` itself. -/
structure MappedView where
  src : DF
  entries : List (String × List String)

/-- The `for parameter_name, data_features in self.mapping.items()` loop at
graph-construction time: `self._df.loc[:, data_features]` validates the
column names eagerly against the frame and raises the wrapped `KeyError` on
a miss; the row-wise apply itself is deferred. -/
def checkEntries (df : DF) : Mapping →
    Except PyErr (List (String × List String))
  | [] => .ok []
  | (p, t) :: rest =>
      let feats := targetsAsList t
      if feats.all fun f => df.names.contains f then do
        let r ← checkEntries df rest
        .ok ((p, feats) :: r)
      else .error (.keyError (didNotFindMsg feats))

/-- `DataSource.to_mapped_dataframe`: reject an empty mapping, validate every
entry, and return the lazy view (whose final `.loc[:, mapping.keys()]`
selection is likewise recorded, not executed). -/
def to_mapped_dataframe (df : DF) (mapping : Mapping) :
    Except PyErr MappedView :=
  if mapping.isEmpty then .error (.valueError needMappingMsg)
  else do
    let entries ← checkEntries df mapping
    .ok ⟨df, entries⟩

/-- `DataSource._to_dict_or_any` on one row of the selected sub-frame:
a record for more than one named column, the bare value for exactly one,
and the `IndexError` of `value.iloc[0]` for zero. -/
def _to_dict_or_any (row : List (String × Value)) : Except PyErr Value :=
  if row.length > 1 then .ok (.dict row)
  else
    match row with
    | p :: _ => .ok p.2
    | [] => .error (.indexError "single positional indexer is out-of-bounds")

/-- Monadic map used to run a row-wise apply. -/
def mapExcept (f : α → Except PyErr β) : List α → Except PyErr (List β)
  | [] => .ok []
  | a :: rest => do
      let b ← f a
      let r ← mapExcept f rest
      .ok (b :: r)

/-- Materialise one assigned column:
`self._df.loc[:, data_features].apply(self._to_dict_or_any, axis=1)`. -/
def mappedCells (df : DF) (feats : List String) : Except PyErr (List Value) :=
  mapExcept
    (fun i => _to_dict_or_any (feats.map fun f => (f, (getCol df f).getD i .na)))
    (List.range df.nrows)

/-- Pandas column assignment `mapped_dataframe[parameter_name] = ...`:
replace in place when the name exists, append otherwise. -/
def dfAssign (df : DF) (name : String) (cells : List Value) : DF :=
  if (df.cols.find? fun c => c.1 == name).isSome then
    ⟨df.nrows, df.cols.map fun c => if c.1 == name then (c.1, cells) else c⟩
  else ⟨df.nrows, df.cols ++ [(name, cells)]⟩

/-- `.loc[:, names]`: the named columns, in the given order. -/
def selectByNames (df : DF) (ns : List String) : DF :=
  ⟨df.nrows, ns.map fun n => (n, getCol df n)⟩

/-- Run the recorded assignments over the accumulating frame. -/
def assignLoop (src : DF) : List (String × List String) → DF →
    Except PyErr DF
  | [], acc => .ok acc
  | (p, feats) :: rest, acc => do
      let cells ← mappedCells src feats
      assignLoop src rest (dfAssign acc p cells)

/-- Computing the mapped view: start from the shallow copy of the source
frame, run each recorded assignment, then select exactly the mapping keys. -/
def computeMapped (v : MappedView) : Except PyErr DF := do
  let mapped ← assignLoop v.src v.entries v.src
  .ok (selectByNames mapped (v.entries.map fun e => e.1))

/-! ## Row dictionaries (`DataSource.to_bag` / `_row2dict`) -/

/-- Modelled from the spec: the `ID` constant imported from
`sources/readers.py` — the checked-in `readers.py` is an older revision
without it; the spec says each row dict carries an `id` key holding the row
identity. -/
def ID : String := "id"

/-- Modelled from the spec: the `RESOURCE` constant imported from
`sources/readers.py` (absent from the checked-in revision); the spec's
resource tag key. -/
def RESOURCE : String := "resource"

/-- Modelled from the spec: the `PATH_COLUMN_NAME` constant imported from
`sources/readers.py` (absent from the checked-in revision); the spec says
the resource tag falls back to the `path` column. -/
def PATH_COLUMN_NAME : String := "path"

/-- Python `column.replace(".", "_")`: every dot becomes an underscore
(character-wise, as the pattern is a single character). -/
def pyReplaceDotUnderscore (s : String) : String :=
  ⟨s.data.map fun c => if c == '.' then '_' else c⟩

/-- Python dict assignment on a row dictionary. -/
def pyDictSetV (d : List (String × Value)) (k : String) (v : Value) :
    List (String × Value) :=
  if (d.find? fun p => p.1 == k).isSome then
    d.map fun p => if p.1 == k then (p.1, v) else p
  else d ++ [(k, v)]

/-- Python `dict(pairs)`: left-to-right insertion, later pairs overwriting
earlier ones in place. -/
def pyDictOf (pairs : List (String × Value)) : List (String × Value) :=
  pairs.foldl (fun acc p => pyDictSetV acc p.1 p.2) []

/-- `str(default_path)` for the optional default path (note
`str(None) = "None"`). -/
def pyStrOfOpt : Option String → String
  | none => "None"
  | some s => s

/-- `DataSource._row2dict`: sanitise the column names (every `.` becomes
`_`), build the dict from the `id` pair followed by the column pairs, then
default the `resource` entry from the `path` entry or the stringified
default path. -/
def _row2dict (idx : Value) (data : List Value) (columns : List String)
    (default_path : Option String) : List (String × Value) :=
  let sanitized_columns := columns.map fun c => pyReplaceDotUnderscore c
  let d := pyDictOf ((ID, idx) :: sanitized_columns.zip data)
  pyDictSetV d RESOURCE
    ((lookupv d RESOURCE).getD
      ((lookupv d PATH_COLUMN_NAME).getD (.prim (pyStrOfOpt default_path))))

/-- `DataSource.to_bag` materialised: one `_row2dict` per row, with the
row index values supplied by the frame's index and no `default_path`
(the `map` call passes only `columns`). -/
def dsToBag (df : DF) (index : List Value) : List (List (String × Value)) :=
  let dict_keys := df.cols.map fun c => pyStrip c.1
  (List.range df.nrows).map fun i =>
    _row2dict ((index.get? i).getD .na)
      (df.cols.map fun c => (c.2.get? i).getD .na) dict_keys none

/-- `DataSource.to_mapped_bag` materialised: build the mapped view, compute
it, and turn it into row dictionaries. -/
def dsToMappedBag (df : DF) (mapping : Mapping) (index : List Value) :
    Except PyErr (List (List (String × Value))) := do
  let v ← to_mapped_dataframe df mapping
  let md ← computeMapped v
  .ok (dsToBag md index)

/-! ## Definitions used by the claim statements -/

/-- No column's first non-missing value is a dict or a structured list. -/
def noStructuredColumns (df : DF) : Bool :=
  df.cols.all fun c => classify c.2 == CClass.cunmod

/-- Flathood of a flattening outcome (vacuous for an exception). -/
def resultFlat : Except PyErr DF → Bool
  | .ok d => noStructuredColumns d
  | .error _ => true

/-- Whether one pivoted row survives the `if data` filter of the
list-column loop (a `None` and an empty pivot are both dropped). -/
def keptPivot : Option (List (String × Value)) → Bool
  | none => false
  | some d => ¬d.isEmpty

/-- The row-dict keys `to_bag` derives from the column names: stripped, dots
replaced by underscores. -/
def sanitizedKeys (df : DF) : List String :=
  df.cols.map fun c => pyReplaceDotUnderscore (pyStrip c.1)

/-- The value the spec prescribes for a mapped cell: the bare value for a
single named source column, a record keyed by the column names for several.
(This is the spec's wording, to be compared against the code's
`_to_dict_or_any` below.) -/
def specMappedValue (df : DF) (feats : List String) (i : Nat) : Value :=
  if feats.length > 1 then
    .dict (feats.map fun f => (f, (getCol df f).getD i .na))
  else
    match feats with
    | f :: _ => (getCol df f).getD i .na
    | [] => .na

/-! ## Depth lemmas -/

theorem depth_le_listDepth {v : Value} {l : List Value} (h : v ∈ l) :
    v.depth ≤ Value.listDepth l := by
  induction l with
  | nil => cases h
  | cons a t ih =>
    simp only [Value.listDepth]
    rcases List.mem_cons.mp h with h1 | h2
    · exact h1 ▸ Nat.le_max_left _ _
    · exact Nat.le_trans (ih h2) (Nat.le_max_right _ _)

theorem depth_le_fieldsDepth {p : String × Value} {fs : List (String × Value)}
    (h : p ∈ fs) : p.2.depth ≤ Value.fieldsDepth fs := by
  induction fs with
  | nil => cases h
  | cons a t ih =>
    simp only [Value.fieldsDepth]
    rcases List.mem_cons.mp h with h1 | h2
    · exact h1 ▸ Nat.le_max_left _ _
    · exact Nat.le_trans (ih h2) (Nat.le_max_right _ _)

theorem listDepth_le_iff {l : List Value} {n : Nat} :
    Value.listDepth l ≤ n ↔ ∀ v ∈ l, v.depth ≤ n := by
  induction l with
  | nil => simp [Value.listDepth]
  | cons a t ih =>
    simp only [Value.listDepth, Nat.max_le, List.mem_cons, ih]
    constructor
    · rintro ⟨h1, h2⟩ v (rfl | hv)
      · exact h1
      · exact h2 v hv
    · intro h
      exact ⟨h a (Or.inl rfl), fun v hv => h v (Or.inr hv)⟩

theorem fieldsDepth_le_iff {fs : List (String × Value)} {n : Nat} :
    Value.fieldsDepth fs ≤ n ↔ ∀ p ∈ fs, p.2.depth ≤ n := by
  induction fs with
  | nil => simp [Value.fieldsDepth]
  | cons a t ih =>
    simp only [Value.fieldsDepth, Nat.max_le, List.mem_cons, ih]
    constructor
    · rintro ⟨h1, h2⟩ p (rfl | hp)
      · exact h1
      · exact h2 p hp
    · intro h
      exact ⟨h a (Or.inl rfl), fun p hp => h p (Or.inr hp)⟩

theorem df_depth_le_iff {df : DF} {n : Nat} :
    df.depth ≤ n ↔ ∀ c ∈ df.cols, Value.listDepth c.2 ≤ n := by
  obtain ⟨m, cols⟩ := df
  simp only [DF.depth]
  induction cols with
  | nil => simp
  | cons a t ih =>
    simp only [List.foldr_cons, Nat.max_le, List.mem_cons, ih]
    constructor
    · rintro ⟨h1, h2⟩ c (rfl | hc)
      · exact h1
      · exact h2 c hc
    · intro h
      exact ⟨h a (Or.inl rfl), fun c hc => h c (Or.inr hc)⟩

theorem cell_depth_le_df_depth {df : DF} {c : String × List Value} {v : Value}
    (hc : c ∈ df.cols) (hv : v ∈ c.2) : v.depth ≤ df.depth :=
  Nat.le_trans (depth_le_listDepth hv)
    (df_depth_le_iff.mp (Nat.le_refl _) c hc)

theorem depth_eq_zero_iff {v : Value} :
    v.depth = 0 ↔ v = .na ∨ ∃ s, v = .prim s := by
  cases v <;> simp [Value.depth]

/-! ## Classification lemmas -/

theorem firstElement_mem {cells : List Value} {e : Value}
    (h : firstElement cells = some e) : e ∈ cells ∧ e.isna = false := by
  unfold firstElement at h
  have hmem : e ∈ dropna cells := by
    cases hd : (dropna cells) with
    | nil => simp [hd] at h
    | cons a t =>
      simp [hd] at h
      exact h ▸ List.mem_cons_self a t
  unfold dropna at hmem
  have := List.mem_filter.mp hmem
  exact ⟨this.1, by simpa using this.2⟩

theorem classify_eval_none {cells : List Value}
    (hq : firstElement cells = none) : classify cells = .cunmod := by
  unfold classify
  rw [hq]

theorem classify_eval_na {cells : List Value}
    (hq : firstElement cells = some .na) : classify cells = .cunmod := by
  unfold classify
  rw [hq]
  rfl

theorem classify_eval_prim {cells : List Value} {s : String}
    (hq : firstElement cells = some (.prim s)) : classify cells = .cunmod := by
  unfold classify
  rw [hq]
  rfl

theorem classify_eval_dict {cells : List Value} {fs : List (String × Value)}
    (hq : firstElement cells = some (.dict fs)) : classify cells = .cdict := by
  unfold classify
  rw [hq]

theorem classify_eval_vlist {cells : List Value} {es : List Value}
    (hq : firstElement cells = some (.vlist es)) :
    classify cells =
      if is_list_of_structured_data (.vlist es) then .clist else .cunmod := by
  unfold classify
  rw [hq]

theorem classify_cunmod_of_depth0 {cells : List Value}
    (h : ∀ v ∈ cells, v.depth = 0) : classify cells = .cunmod := by
  cases hq : firstElement cells with
  | none => exact classify_eval_none hq
  | some e =>
    obtain ⟨hmem, hna⟩ := firstElement_mem hq
    rcases depth_eq_zero_iff.mp (h e hmem) with rfl | ⟨s, rfl⟩
    · simp [Value.isna] at hna
    · exact classify_eval_prim hq

theorem noStructuredColumns_iff {df : DF} :
    noStructuredColumns df = true ↔ ∀ c ∈ df.cols, classify c.2 = .cunmod := by
  unfold noStructuredColumns
  simp [List.all_eq_true]

theorem isFlat_iff {df : DF} :
    isFlat df = true ↔ ∀ c ∈ df.cols, classify c.2 = .cunmod := by
  unfold isFlat columns_analysis
  rw [beq_iff_eq, List.filter_length_eq_length]
  simp

theorem isFlat_of_depth0 {df : DF} (h : df.depth = 0) : isFlat df = true := by
  rw [isFlat_iff]
  intro c hc
  apply classify_cunmod_of_depth0
  intro v hv
  exact Nat.le_zero.mp (h ▸ cell_depth_le_df_depth hc hv)

theorem not_flat_exists {df : DF} (h : isFlat df = false) :
    ∃ c ∈ df.cols, classify c.2 ≠ .cunmod := by
  by_contra hcon
  push_neg at hcon
  rw [← isFlat_iff] at hcon
  simp [hcon] at h

theorem classify_cdict_one_le {cells : List Value}
    (h : classify cells = .cdict) : 1 ≤ Value.listDepth cells := by
  cases hq : firstElement cells with
  | none => rw [classify_eval_none hq] at h; simp at h
  | some e =>
    obtain ⟨hmem, hna⟩ := firstElement_mem hq
    cases e with
    | dict fs =>
      have h1 : 1 ≤ Value.depth (.dict fs) := by simp [Value.depth]
      exact Nat.le_trans h1 (depth_le_listDepth hmem)
    | na => simp [Value.isna] at hna
    | prim s => rw [classify_eval_prim hq] at h; simp at h
    | vlist es =>
      rw [classify_eval_vlist hq] at h
      split at h <;> simp_all

theorem classify_clist_two_le {cells : List Value}
    (h : classify cells = .clist) : 2 ≤ Value.listDepth cells := by
  cases hq : firstElement cells with
  | none => rw [classify_eval_none hq] at h; simp at h
  | some e =>
    obtain ⟨hmem, hna⟩ := firstElement_mem hq
    cases e with
    | dict fs => rw [classify_eval_dict hq] at h; simp at h
    | na => simp [Value.isna] at hna
    | prim s => rw [classify_eval_prim hq] at h; simp at h
    | vlist es =>
      rw [classify_eval_vlist hq] at h
      have hstruct : is_list_of_structured_data (.vlist es) = true := by
        by_contra hs
        simp only [Bool.not_eq_true] at hs
        rw [if_neg (by simp [hs])] at h
        exact absurd h (by simp)
      simp only [is_list_of_structured_data, List.any_eq_true] at hstruct
      obtain ⟨m, hm, hmstruct⟩ := hstruct
      have hm1 : 1 ≤ m.depth := by
        cases m <;> simp_all [Value.depth]
      have h2 : 2 ≤ Value.depth (.vlist es) := by
        have := Nat.le_trans hm1 (depth_le_listDepth hm)
        simp only [Value.depth]
        omega
      exact Nat.le_trans h2 (depth_le_listDepth hmem)

/-! ## Provenance lemmas for the pivot machinery -/

theorem exceptBind_ok {α β : Type} (a : α) (f : α → Except PyErr β) :
    (Except.ok a >>= f) = f a := rfl

theorem exceptBind_error {α β : Type} (e : PyErr) (f : α → Except PyErr β) :
    ((Except.error e : Except PyErr α) >>= f) = .error e := rfl

theorem forall₂_mem_right {R : α → β → Prop} {l₁ : List α} {l₂ : List β}
    (h : List.Forall₂ R l₁ l₂) {y : β} (hy : y ∈ l₂) : ∃ x ∈ l₁, R x y := by
  induction h with
  | nil => cases hy
  | cons hr _ ih =>
    rcases List.mem_cons.mp hy with rfl | hy'
    · exact ⟨_, List.mem_cons_self _ _, hr⟩
    · obtain ⟨x, hx, hrx⟩ := ih hy'
      exact ⟨x, List.mem_cons_of_mem _ hx, hrx⟩

theorem applyDictToList_ok {cells : List Value}
    {piv : List (Option (List (String × Value)))}
    (h : applyDictToList cells = .ok piv) :
    List.Forall₂ (fun c d => dict_to_list c = .ok d) cells piv := by
  induction cells generalizing piv with
  | nil =>
    simp only [applyDictToList] at h
    cases h
    exact List.Forall₂.nil
  | cons c cs ih =>
    simp only [applyDictToList] at h
    cases hd : dict_to_list c with
    | error e => rw [hd, exceptBind_error] at h; cases h
    | ok d =>
      rw [hd, exceptBind_ok] at h
      cases hr : applyDictToList cs with
      | error e => rw [hr, exceptBind_error] at h; cases h
      | ok r =>
        rw [hr, exceptBind_ok] at h
        simp only [Except.ok.injEq] at h
        cases h
        exact List.Forall₂.cons hd (ih hr)

theorem allDicts_eq_some {rows : List Value}
    {recs : List (List (String × Value))} (h : allDicts rows = some recs) :
    rows = recs.map Value.dict := by
  induction rows generalizing recs with
  | nil => simp only [allDicts] at h; cases h; rfl
  | cons r rs ih =>
    cases r with
    | dict fs =>
      simp only [allDicts] at h
      cases hr : allDicts rs with
      | none => rw [hr] at h; cases h
      | some rs' =>
        rw [hr] at h
        cases h
        simp [ih hr]
    | na => simp [allDicts] at h
    | prim s => simp [allDicts] at h
    | vlist es => simp [allDicts] at h

theorem allVlists_eq_some {rows : List Value} {ls : List (List Value)}
    (h : allVlists rows = some ls) : rows = ls.map Value.vlist := by
  induction rows generalizing ls with
  | nil => simp only [allVlists] at h; cases h; rfl
  | cons r rs ih =>
    cases r with
    | vlist es =>
      simp only [allVlists] at h
      cases hr : allVlists rs with
      | none => rw [hr] at h; cases h
      | some ls' =>
        rw [hr] at h
        cases h
        simp [ih hr]
    | na => simp [allVlists] at h
    | prim s => simp [allVlists] at h
    | dict fs => simp [allVlists] at h

theorem mem_of_lookupv {fs : List (String × Value)} {k : String} {v : Value}
    (h : lookupv fs k = some v) : ∃ p ∈ fs, p.2 = v := by
  unfold lookupv at h
  cases hf : fs.find? fun p => p.1 == k with
  | none => rw [hf] at h; cases h
  | some p =>
    rw [hf] at h
    cases h
    exact ⟨p, List.mem_of_find?_eq_some hf, rfl⟩

theorem pivotRecords_depth_le {recs : List (List (String × Value))} {B : Nat}
    (h : ∀ r ∈ recs, Value.fieldsDepth r ≤ B) :
    ∀ p ∈ pivotRecords recs, p.2.depth ≤ 1 + B := by
  intro p hp
  unfold pivotRecords at hp
  obtain ⟨k, -, rfl⟩ := List.mem_map.mp hp
  simp only [Value.depth, Nat.add_le_add_iff_left]
  rw [listDepth_le_iff]
  intro v hv
  obtain ⟨r, hr, rfl⟩ := List.mem_map.mp hv
  cases hl : lookupv r k with
  | none => simp [Option.getD, Value.depth]
  | some w =>
    obtain ⟨q, hq, rfl⟩ := mem_of_lookupv hl
    simpa using Nat.le_trans (depth_le_fieldsDepth hq) (h r hr)

theorem pivotPositional_depth_le {ls : List (List Value)} {B : Nat}
    (h : ∀ l ∈ ls, Value.listDepth l ≤ B) :
    ∀ p ∈ pivotPositional ls, p.2.depth ≤ 1 + B := by
  intro p hp
  unfold pivotPositional at hp
  obtain ⟨i, -, rfl⟩ := List.mem_map.mp hp
  simp only [Value.depth, Nat.add_le_add_iff_left]
  rw [listDepth_le_iff]
  intro v hv
  obtain ⟨l, hl, rfl⟩ := List.mem_map.mp hv
  cases hg : l.get? i with
  | none => simp [Option.getD, Value.depth]
  | some w =>
    have hw : w ∈ l := List.get?_mem hg
    simpa using Nat.le_trans (depth_le_listDepth hw) (h l hl)

theorem listDepth_eq_zero_of_scalarLike {rows : List Value}
    (h : allScalarLike rows = true) : Value.listDepth rows = 0 := by
  rw [← Nat.le_zero, listDepth_le_iff]
  intro v hv
  have := List.all_eq_true.mp h v hv
  cases v <;> simp_all [Value.depth]

theorem dict_to_list_depth_le {row : Value} {d : List (String × Value)}
    (h : dict_to_list row = .ok (some d)) :
    ∀ p ∈ d, p.2.depth ≤ max 1 (row.depth - 1) := by
  intro p hp
  cases row with
  | na => simp [dict_to_list] at h
  | prim s => simp [dict_to_list] at h
  | dict fs =>
    simp only [dict_to_list] at h
    cases hv : allVlists (fs.map fun p => p.2) with
    | none => rw [hv] at h; cases h
    | some ls =>
      rw [hv] at h
      cases hb : ls.all fun l => l.length == maxLen ls with
      | false => simp only [hb, Bool.false_eq_true, if_false] at h; cases h
      | true =>
        simp only [hb, if_true] at h
        cases h with
        | refl =>
          have hle := depth_le_fieldsDepth hp
          simp only [Value.depth]
          omega
  | vlist elems =>
    simp only [dict_to_list] at h
    -- the loop rebinds `row` to the last list element, if any
    have hrow' : ∀ row' , row' = (match (elems.filterMap fun e =>
          match e with
          | .vlist es => some es
          | _ => none).getLast? with
        | some es => es
        | none => elems) → Value.listDepth row' ≤ Value.listDepth elems := by
      intro row' hdef
      cases hL : (elems.filterMap fun e =>
          match e with
          | .vlist es => some es
          | _ => none).getLast? with
      | none => rw [hL] at hdef; exact hdef ▸ Nat.le_refl _
      | some es =>
        rw [hL] at hdef
        subst hdef
        have hes : Value.vlist row' ∈ elems := by
          have hmem : row' ∈ elems.filterMap fun e =>
              match e with
              | .vlist es => some es
              | _ => none := by
            obtain ⟨ys, hys⟩ := List.getLast?_eq_some_iff.mp hL
            rw [hys]
            exact List.mem_append_right _ (List.mem_singleton.mpr rfl)
          obtain ⟨e, he, hpick⟩ := List.mem_filterMap.mp hmem
          cases e <;> simp_all
        have := depth_le_listDepth hes
        simp only [Value.depth] at this
        omega
    rw [show Value.depth (.vlist elems) - 1 = Value.listDepth elems by
      simp [Value.depth]] at *
    set row' := (match (elems.filterMap fun e =>
        match e with
        | .vlist es => some es
        | _ => none).getLast? with
      | some es => es
      | none => elems) with hdef
    have hbound : Value.listDepth row' ≤ Value.listDepth elems := hrow' _ hdef
    clear_value row'
    cases row' with
    | nil =>
      simp only [Except.ok.injEq, Option.some.injEq] at h
      subst h
      cases hp
    | cons r0 rest =>
      cases r0 with
      | dict f0 =>
        cases hD : allDicts (Value.dict f0 :: rest) with
        | none => rw [hD] at h; cases h
        | some recs =>
          rw [hD] at h
          simp only [Except.ok.injEq, Option.some.injEq] at h
          subst h
          have hrows := allDicts_eq_some hD
          have hrd : 1 ≤ Value.listDepth (Value.dict f0 :: rest) := by
            have : 1 ≤ Value.depth (.dict f0) := by simp [Value.depth]
            exact Nat.le_trans this
              (depth_le_listDepth (List.mem_cons_self _ _))
          have hfb : ∀ r ∈ recs, Value.fieldsDepth r ≤
              Value.listDepth (Value.dict f0 :: rest) - 1 := by
            intro r hr
            have : Value.dict r ∈ (Value.dict f0 :: rest) := by
              rw [hrows]
              exact List.mem_map_of_mem _ hr
            have := depth_le_listDepth this
            simp only [Value.depth] at this
            omega
          have := pivotRecords_depth_le hfb p hp
          omega
      | vlist l0 =>
        cases hV : allVlists (Value.vlist l0 :: rest) with
        | none => rw [hV] at h; cases h
        | some ls =>
          rw [hV] at h
          simp only [Except.ok.injEq, Option.some.injEq] at h
          subst h
          have hrows := allVlists_eq_some hV
          have hrd : 1 ≤ Value.listDepth (Value.vlist l0 :: rest) := by
            have : 1 ≤ Value.depth (.vlist l0) := by simp [Value.depth]
            exact Nat.le_trans this
              (depth_le_listDepth (List.mem_cons_self _ _))
          have hfb : ∀ l ∈ ls, Value.listDepth l ≤
              Value.listDepth (Value.vlist l0 :: rest) - 1 := by
            intro l hl
            have : Value.vlist l ∈ (Value.vlist l0 :: rest) := by
              rw [hrows]
              exact List.mem_map_of_mem _ hl
            have := depth_le_listDepth this
            simp only [Value.depth] at this
            omega
          have := pivotPositional_depth_le hfb p hp
          omega
      | na =>
        simp only at h
        cases hall : allScalarLike (Value.na :: rest) with
        | false => simp only [hall, Bool.false_eq_true, if_false] at h; cases h
        | true =>
          simp only [hall, if_true, Except.ok.injEq, Option.some.injEq] at h
          subst h
          rcases List.mem_singleton.mp hp with rfl
          simp only [Value.depth]
          rw [listDepth_eq_zero_of_scalarLike hall]
          omega
      | prim s0 =>
        simp only at h
        cases hall : allScalarLike (Value.prim s0 :: rest) with
        | false => simp only [hall, Bool.false_eq_true, if_false] at h; cases h
        | true =>
          simp only [hall, if_true, Except.ok.injEq, Option.some.injEq] at h
          subst h
          rcases List.mem_singleton.mp hp with rfl
          simp only [Value.depth]
          rw [listDepth_eq_zero_of_scalarLike hall]
          omega

/-! ## Depth bounds for the expanded columns -/

theorem pdRecordsFromAssocs_cells {n : Nat}
    {recs : List (List (String × Value))} {d : DF}
    (h : pdRecordsFromAssocs n recs = .ok d) :
    ∀ c ∈ d.cols, ∀ v ∈ c.2,
      v = Value.na ∨ ∃ r ∈ recs, ∃ p ∈ r, p.2 = v := by
  unfold pdRecordsFromAssocs at h
  split at h
  · cases h; intro c hc; cases hc
  · split at h
    · cases h
    · cases h
      intro c hc v hv
      obtain ⟨k, -, rfl⟩ := List.mem_map.mp hc
      obtain ⟨r, hr, rfl⟩ := List.mem_map.mp hv
      cases hl : lookupv r k with
      | none => left; simp [hl, Option.getD]
      | some w =>
        right
        obtain ⟨q, hq, rfl⟩ := mem_of_lookupv hl
        exact ⟨r, hr, q, hq, by simp [hl, Option.getD]⟩

theorem prefixedCols_cells {p : String} {d : DF} :
    ∀ c ∈ (prefixedCols p d).cols, ∃ c' ∈ d.cols, c.2 = c'.2 := by
  intro c hc
  obtain ⟨c', hc', rfl⟩ := List.mem_map.mp hc
  exact ⟨c', hc', rfl⟩

theorem listColumnDF_depth {n : Nat} {name : String} {cells : List Value}
    {d : DF} {D : Nat} (h : listColumnDF n name cells = .ok d)
    (hcells : ∀ v ∈ cells, v.depth ≤ D) (hD : 2 ≤ D) :
    ∀ c ∈ d.cols, ∀ v ∈ c.2, v.depth ≤ D - 1 := by
  unfold listColumnDF at h
  cases hpiv : applyDictToList cells with
  | error e => rw [hpiv, exceptBind_error] at h; cases h
  | ok piv =>
    rw [hpiv, exceptBind_ok] at h
    simp only [] at h
    cases hrec : pdRecordsFromAssocs n
        ((piv.filterMap id).filter fun d => ¬d.isEmpty) with
    | error e => rw [hrec, exceptBind_error] at h; cases h
    | ok cdf =>
      rw [hrec, exceptBind_ok] at h
      simp only [Except.ok.injEq] at h
      subst h
      intro c hc v hv
      obtain ⟨c', hc', hcc⟩ := prefixedCols_cells c hc
      rw [hcc] at hv
      rcases pdRecordsFromAssocs_cells hrec c' hc' v hv with rfl | ⟨r, hr, q, hq, rfl⟩
      · simp [Value.depth]
      · have hrp : some r ∈ piv := by
          have := (List.mem_filter.mp hr).1
          obtain ⟨o, ho, hid⟩ := List.mem_filterMap.mp this
          simp only [id_eq] at hid
          subst hid
          exact ho
        obtain ⟨row, hrow, hok⟩ := forall₂_mem_right (applyDictToList_ok hpiv) hrp
        have hb := dict_to_list_depth_le hok q hq
        have hrowD := hcells row hrow
        omega

theorem dictColumnDF_depth {n : Nat} {name : String} {cells : List Value}
    {d : DF} {D : Nat} (h : dictColumnDF n name cells = .ok d)
    (hcells : ∀ v ∈ cells, v.depth ≤ D) (hD : 1 ≤ D) :
    ∀ c ∈ d.cols, ∀ v ∈ c.2, v.depth ≤ D - 1 := by
  unfold dictColumnDF pdRecordsFromValues at h
  simp only [] at h
  cases hA : allDicts (cells.map fun v => if v.falsy then Value.dict [] else v) with
  | none => rw [hA, exceptBind_error] at h; cases h
  | some recs =>
    simp only [hA] at h
    cases hrec : pdRecordsFromAssocs n recs with
    | error e => rw [hrec, exceptBind_error] at h; cases h
    | ok cdf =>
      rw [hrec, exceptBind_ok] at h
      simp only [Except.ok.injEq] at h
      subst h
      intro c hc v hv
      obtain ⟨c', hc', hcc⟩ := prefixedCols_cells c hc
      rw [hcc] at hv
      rcases pdRecordsFromAssocs_cells hrec c' hc' v hv with rfl | ⟨r, hr, q, hq, rfl⟩
      · simp [Value.depth]
      · have hdata := allDicts_eq_some hA
        have hmem : Value.dict r ∈
            cells.map fun v => if v.falsy then Value.dict [] else v := by
          rw [hdata]
          exact List.mem_map_of_mem _ hr
        obtain ⟨x, hx, hfx⟩ := List.mem_map.mp hmem
        by_cases hfal : x.falsy
        · rw [if_pos hfal] at hfx
          have : r = [] := by
            cases hfx
            rfl
          subst this
          cases hq
        · rw [if_neg hfal] at hfx
          subst hfx
          have hle := depth_le_fieldsDepth hq
          have hxd := hcells _ hx
          simp only [Value.depth] at hxd
          omega

theorem buildColumnDfs_ok {f : Nat → String → List Value → Except PyErr DF}
    {n : Nat} {cols : List (String × List Value)} {dfs : List DF}
    (h : buildColumnDfs f n cols = .ok dfs) :
    List.Forall₂ (fun c d => f n c.1 c.2 = .ok d) cols dfs := by
  induction cols generalizing dfs with
  | nil =>
    simp only [buildColumnDfs] at h
    cases h
    exact List.Forall₂.nil
  | cons c cs ih =>
    simp only [buildColumnDfs] at h
    cases hd : f n c.1 c.2 with
    | error e => rw [hd, exceptBind_error] at h; cases h
    | ok d =>
      rw [hd, exceptBind_ok] at h
      cases hr : buildColumnDfs f n cs with
      | error e => rw [hr, exceptBind_error] at h; cases h
      | ok r =>
        rw [hr, exceptBind_ok] at h
        simp only [Except.ok.injEq] at h
        cases h
        exact List.Forall₂.cons hd (ih hr)

theorem flattenNew_depth {df nd : DF} (h : flattenNew df = .ok nd)
    (hns : isFlat df = false) : nd.depth ≤ df.depth - 1 ∧ 1 ≤ df.depth := by
  have hdf1 : 1 ≤ df.depth := by
    obtain ⟨c, hc, hcl⟩ := not_flat_exists hns
    have h1 : 1 ≤ Value.listDepth c.2 := by
      cases hcls : classify c.2 with
      | cunmod => exact absurd hcls hcl
      | cdict => exact classify_cdict_one_le hcls
      | clist => exact Nat.le_trans (by omega) (classify_clist_two_le hcls)
    calc 1 ≤ Value.listDepth c.2 := h1
    _ ≤ df.depth := df_depth_le_iff.mp (Nat.le_refl _) c hc
  refine ⟨?_, hdf1⟩
  unfold flattenNew at h
  simp only [] at h
  cases hl : buildColumnDfs listColumnDF df.nrows (columns_analysis df).2.1 with
  | error e => rw [hl, exceptBind_error] at h; cases h
  | ok ldfs =>
    rw [hl, exceptBind_ok] at h
    cases hd : buildColumnDfs dictColumnDF df.nrows (columns_analysis df).1 with
    | error e => rw [hd, exceptBind_error] at h; cases h
    | ok ddfs =>
      rw [hd, exceptBind_ok] at h
      simp only [Except.ok.injEq] at h
      subst h
      rw [df_depth_le_iff]
      intro c hc
      rw [listDepth_le_iff]
      intro v hv
      simp only [concatAll, List.mem_flatten, List.mem_map] at hc
      obtain ⟨cl, ⟨d', hd', rfl⟩, hcd⟩ := hc
      rcases List.mem_append.mp hd' with hmem | hmem
      · -- a frame produced from a list-of-structured column
        obtain ⟨col, hcol, hok⟩ := forall₂_mem_right (buildColumnDfs_ok hl) hmem
        have hclass : classify col.2 = .clist := by
          have := (List.mem_filter.mp hcol).2
          simpa using this
        have hD2 : 2 ≤ df.depth :=
          Nat.le_trans (classify_clist_two_le hclass)
            (df_depth_le_iff.mp (Nat.le_refl _) _ (List.mem_filter.mp hcol).1)
        have hcells : ∀ w ∈ col.2, w.depth ≤ df.depth := fun w hw =>
          cell_depth_le_df_depth (List.mem_filter.mp hcol).1 hw
        exact listColumnDF_depth hok hcells hD2 c hcd v hv
      · -- a frame produced from a dict column
        obtain ⟨col, hcol, hok⟩ := forall₂_mem_right (buildColumnDfs_ok hd) hmem
        have hcells : ∀ w ∈ col.2, w.depth ≤ df.depth := fun w hw =>
          cell_depth_le_df_depth (List.mem_filter.mp hcol).1 hw
        exact dictColumnDF_depth hok hcells hdf1 c hcd v hv

/-! ## The flattening recursion -/

theorem flattenAux_flat {fuel : Nat} {df : DF} (h : isFlat df = true) :
    flattenAux fuel df = some (.ok df) := by
  unfold flattenAux
  rw [h]
  rfl

theorem flattenAux_zero {df : DF} (h : isFlat df = false) :
    flattenAux 0 df = none := by
  unfold flattenAux
  rw [h]
  rfl

theorem flattenAux_succ_error {n : Nat} {df : DF} {e : PyErr}
    (h : isFlat df = false) (hnew : flattenNew df = .error e) :
    flattenAux (n + 1) df = some (.error e) := by
  unfold flattenAux
  rw [h, hnew]
  rfl

theorem flattenAux_succ_ok {n : Nat} {df nd : DF}
    (h : isFlat df = false) (hnew : flattenNew df = .ok nd) :
    flattenAux (n + 1) df = flattenGlue df (flattenAux n nd) := by
  conv_lhs => rw [flattenAux]
  rw [h, hnew]
  rfl

theorem flattenAux_isSome {fuel : Nat} {df : DF} (h : df.depth ≤ fuel) :
    (flattenAux fuel df).isSome = true := by
  induction fuel generalizing df with
  | zero =>
    rw [flattenAux_flat (isFlat_of_depth0 (Nat.le_zero.mp h))]
    rfl
  | succ n ih =>
    cases hf : isFlat df with
    | true => rw [flattenAux_flat hf]; rfl
    | false =>
      cases hnew : flattenNew df with
      | error e => rw [flattenAux_succ_error hf hnew]; rfl
      | ok nd =>
        rw [flattenAux_succ_ok hf hnew]
        obtain ⟨hnd, hdf1⟩ := flattenNew_depth hnew hf
        have hle : nd.depth ≤ n := by omega
        have hsome := ih hle
        cases hrec : flattenAux n nd with
        | none => rw [hrec] at hsome; cases hsome
        | some r => cases r <;> rfl

theorem flattenAux_stable {n m : Nat} {df : DF} (hn : df.depth ≤ n)
    (hm : df.depth ≤ m) : flattenAux n df = flattenAux m df := by
  induction n generalizing df m with
  | zero =>
    have hf := isFlat_of_depth0 (Nat.le_zero.mp hn)
    rw [flattenAux_flat hf, flattenAux_flat hf]
  | succ k ih =>
    cases hf : isFlat df with
    | true => rw [flattenAux_flat hf, flattenAux_flat hf]
    | false =>
      have hdf1 : 1 ≤ df.depth := by
        by_contra hc
        push_neg at hc
        rw [isFlat_of_depth0 (by omega)] at hf
        cases hf
      cases m with
      | zero => omega
      | succ m' =>
        cases hnew : flattenNew df with
        | error e =>
          rw [flattenAux_succ_error hf hnew, flattenAux_succ_error hf hnew]
        | ok nd =>
          rw [flattenAux_succ_ok hf hnew, flattenAux_succ_ok hf hnew]
          obtain ⟨hnd, -⟩ := flattenNew_depth hnew hf
          have h1 : nd.depth ≤ k := by omega
          have h2 : nd.depth ≤ m' := by omega
          rw [ih h1 h2]

theorem flattenAux_ok_flat {fuel : Nat} {df d : DF}
    (h : flattenAux fuel df = some (.ok d)) : noStructuredColumns d = true := by
  induction fuel generalizing df d with
  | zero =>
    cases hf : isFlat df with
    | true =>
      rw [flattenAux_flat hf] at h
      cases h
      rw [noStructuredColumns_iff]
      exact isFlat_iff.mp hf
    | false =>
      rw [flattenAux_zero hf] at h
      cases h
  | succ n ih =>
    cases hf : isFlat df with
    | true =>
      rw [flattenAux_flat hf] at h
      cases h
      rw [noStructuredColumns_iff]
      exact isFlat_iff.mp hf
    | false =>
      cases hnew : flattenNew df with
      | error e => rw [flattenAux_succ_error hf hnew] at h; cases h
      | ok nd =>
        rw [flattenAux_succ_ok hf hnew] at h
        cases hrec : flattenAux n nd with
        | none => rw [hrec] at h; cases h
        | some r =>
          rw [hrec] at h
          cases r with
          | error e => cases h
          | ok fl =>
            simp only [flattenGlue, Option.some.injEq, Except.ok.injEq] at h
            subst h
            have hfl := ih hrec
            rw [noStructuredColumns_iff]
            intro c hc
            simp only [flattenCombine, concatAll, List.map_cons, List.map_nil,
              List.flatten_cons, List.flatten_nil, List.append_nil] at hc
            rcases List.mem_append.mp hc with hu | hflmem
            · exact of_decide_eq_true (by
                have := (List.mem_filter.mp hu).2
                simpa using this)
            · exact noStructuredColumns_iff.mp hfl c hflmem

/-! ## Claim C1 -/

/-- C1: for every input table, `flatten_dataframe` terminates and needs at
most `df.depth` (the nesting depth of the input values) recursion steps —
any bound of at least `df.depth` gives the same outcome and never exhausts —
and when it returns a table, no column of that table has a dict or
structured-list first non-missing value. -/
theorem c1_flatten_terminates (df : DF) (fuel : Nat)
    (hfuel : df.depth ≤ fuel) :
    flattenAux fuel df = some (flatten_dataframe df) ∧
    resultFlat (flatten_dataframe df) = true := by
  have hsome := flattenAux_isSome (Nat.le_refl df.depth)
  cases hx : flattenAux df.depth df with
  | none => rw [hx] at hsome; cases hsome
  | some r =>
    have hval : flatten_dataframe df = r := by
      unfold flatten_dataframe
      rw [hx]
      rfl
    constructor
    · rw [flattenAux_stable hfuel (Nat.le_refl df.depth), hx, hval]
    · rw [hval]
      cases r with
      | error e => rfl
      | ok d =>
        have := flattenAux_ok_flat hx
        simpa [resultFlat] using this

/-- Witness for `c1_flatten_terminates` on a two-level nested table. -/
theorem c1_witness :
    (⟨1, [("col", [.dict [("a", .dict [("b", .prim "1")])]])]⟩ : DF).depth ≤ 2 ∧
    (flattenAux 2 ⟨1, [("col", [.dict [("a", .dict [("b", .prim "1")])]])]⟩ =
        some (flatten_dataframe
          ⟨1, [("col", [.dict [("a", .dict [("b", .prim "1")])]])]⟩) ∧
      resultFlat (flatten_dataframe
        ⟨1, [("col", [.dict [("a", .dict [("b", .prim "1")])]])]⟩) = true) :=
  ⟨by decide, c1_flatten_terminates _ 2 (by decide)⟩

/-! ## Claim C3 -/

/-- C3: `flatten_dataframe` on an already-flat table (no column whose first
non-missing value is a dict or structured list) returns the table unchanged,
so flattening twice equals flattening once. -/
theorem c3_flatten_idempotent (df : DF) (h : isFlat df = true) :
    flatten_dataframe df = .ok df ∧
    (flatten_dataframe df).bind flatten_dataframe = flatten_dataframe df := by
  have h1 : flatten_dataframe df = .ok df := by
    unfold flatten_dataframe
    rw [flattenAux_flat h]
    rfl
  refine ⟨h1, ?_⟩
  rw [h1]
  show flatten_dataframe df = Except.ok df
  exact h1

/-- Witness for `c3_flatten_idempotent` on a concrete flat table. -/
theorem c3_witness :
    isFlat ⟨2, [("a", [.prim "1", .na]), ("b", [.vlist [.prim "2"], .na])]⟩ = true ∧
    (flatten_dataframe
        ⟨2, [("a", [.prim "1", .na]), ("b", [.vlist [.prim "2"], .na])]⟩ =
      .ok ⟨2, [("a", [.prim "1", .na]), ("b", [.vlist [.prim "2"], .na])]⟩ ∧
    (flatten_dataframe
        ⟨2, [("a", [.prim "1", .na]), ("b", [.vlist [.prim "2"], .na])]⟩).bind
        flatten_dataframe =
      flatten_dataframe
        ⟨2, [("a", [.prim "1", .na]), ("b", [.vlist [.prim "2"], .na])]⟩) :=
  ⟨by rfl, c3_flatten_idempotent _ (by rfl)⟩

/-! ## Claim C2 -/

/-- C2 counterexample: a list-of-structured column in which the first row
pivots fine and the second row (a bare scalar) cannot be pivoted.  The
failing row itself is converted to `None` without raising — it is dropped by
the `if data` filter — but the re-assembly of the expanded frame then raises
a length-mismatch `ValueError`, so `flatten_dataframe` raises instead of
silently skipping the row. -/
theorem c2_counterexample :
    flatten_dataframe ⟨2, [("c", [.vlist [.dict [("a", .prim "1")]], .prim "x"])]⟩ =
      .error (.valueError "Shape of passed values does not match indices") ∧
    dict_to_list (.prim "x") = .ok none := by
  exact ⟨by rfl, by rfl⟩

theorem filterKept_length (piv : List (Option (List (String × Value)))) :
    ((piv.filterMap id).filter fun d => ¬d.isEmpty).length =
      (piv.filter keptPivot).length := by
  induction piv with
  | nil => rfl
  | cons o rest ih =>
    cases o with
    | none => simpa [keptPivot] using ih
    | some d =>
      cases hd : d.isEmpty
      · simpa [keptPivot, hd] using ih
      · simpa [keptPivot, hd] using ih

theorem filter_length_lt {α : Type} {p : α → Bool} {l : List α} {x : α}
    (hx : x ∈ l) (hpx : p x = false) : (l.filter p).length < l.length := by
  induction l with
  | nil => cases hx
  | cons a t ih =>
    rcases List.mem_cons.mp hx with rfl | hmem
    · rw [List.filter_cons, hpx]
      simp only [Bool.false_eq_true, if_false, List.length_cons]
      exact Nat.lt_succ_of_le (List.length_filter_le _ _)
    · rw [List.filter_cons]
      cases hpa : p a
      · simp only [Bool.false_eq_true, if_false, List.length_cons]
        exact Nat.lt_succ_of_lt (ih hmem)
      · simp only [if_true, List.length_cons]
        exact Nat.succ_lt_succ (ih hmem)

theorem filter_length_pos {α : Type} {p : α → Bool} {l : List α} {x : α}
    (hx : x ∈ l) (hpx : p x = true) : 0 < (l.filter p).length := by
  have : x ∈ l.filter p := List.mem_filter.mpr ⟨hx, hpx⟩
  exact List.length_pos.mpr (List.ne_nil_of_mem this)

/-- C2 amended: a row of a list-of-structured column that cannot be pivoted
is dropped from the collected data without raising, but whenever at least one
row is dropped while another survives, rebuilding the expanded frame over the
full index raises a length-mismatch `ValueError` — the transform fails
instead of skipping the row. -/
theorem c2_skipped_row_raises (name : String) (cells : List Value) (n : Nat)
    (piv : List (Option (List (String × Value))))
    (hlen : cells.length = n)
    (hclass : classify cells = CClass.clist)
    (hpiv : applyDictToList cells = .ok piv)
    (hdrop : ∃ o ∈ piv, keptPivot o = false)
    (hkeep : ∃ o ∈ piv, keptPivot o = true) :
    flatten_dataframe ⟨n, [(name, cells)]⟩ =
      .error (.valueError "Shape of passed values does not match indices") := by
  have hpivlen : piv.length = n :=
    hlen ▸ (List.Forall₂.length_eq (applyDictToList_ok hpiv)).symm
  -- length facts on the surviving data
  obtain ⟨od, hod, hodk⟩ := hdrop
  obtain ⟨ok', hok', hokk⟩ := hkeep
  have hlt : ((piv.filterMap id).filter fun d => ¬d.isEmpty).length < n := by
    rw [filterKept_length]
    exact hpivlen ▸ filter_length_lt hod hodk
  have hpos : 0 < ((piv.filterMap id).filter fun d => ¬d.isEmpty).length := by
    rw [filterKept_length]
    exact filter_length_pos hok' hokk
  -- the list-column expansion raises
  have hlist : listColumnDF n name cells =
      .error (.valueError "Shape of passed values does not match indices") := by
    unfold listColumnDF
    rw [hpiv, exceptBind_ok]
    simp only []
    have hrecs : pdRecordsFromAssocs n
        ((piv.filterMap id).filter fun d => ¬d.isEmpty) =
        .error (.valueError "Shape of passed values does not match indices") := by
      unfold pdRecordsFromAssocs
      rw [if_neg (by
        intro hemp
        rw [List.isEmpty_iff] at hemp
        rw [hemp] at hpos
        cases hpos)]
      rw [if_pos (by omega)]
    rw [hrecs, exceptBind_error]
  -- the frame is not flat and the error propagates
  have hns : isFlat (⟨n, [(name, cells)]⟩ : DF) = false := by
    simp [isFlat, columns_analysis, List.filter_cons, hclass]
  have hnew : flattenNew ⟨n, [(name, cells)]⟩ =
      .error (.valueError "Shape of passed values does not match indices") := by
    unfold flattenNew
    simp only []
    have ha2 : (columns_analysis ⟨n, [(name, cells)]⟩).2.1 = [(name, cells)] := by
      simp [columns_analysis, List.filter_cons, hclass]
    rw [ha2]
    simp only [buildColumnDfs]
    rw [hlist, exceptBind_error, exceptBind_error]
  have hd2 : 2 ≤ (⟨n, [(name, cells)]⟩ : DF).depth := by
    have h2 := classify_clist_two_le hclass
    have : Value.listDepth cells ≤ (⟨n, [(name, cells)]⟩ : DF).depth :=
      df_depth_le_iff.mp (Nat.le_refl _) (name, cells) (by simp)
    omega
  unfold flatten_dataframe
  obtain ⟨k, hk⟩ : ∃ k, (⟨n, [(name, cells)]⟩ : DF).depth = k + 1 :=
    ⟨_, (Nat.succ_pred_eq_of_pos (by omega)).symm⟩
  rw [hk, flattenAux_succ_error hns hnew]
  rfl

/-! ## Claim C4 helpers -/

theorem allDicts_map_dict (recs : List (List (String × Value))) :
    allDicts (recs.map Value.dict) = some recs := by
  induction recs with
  | nil => rfl
  | cons r rest ih => simp [allDicts, ih]

theorem falsy_replace_dicts (recs : List (List (String × Value))) :
    (recs.map Value.dict).map
      (fun v => if v.falsy then Value.dict [] else v) = recs.map Value.dict := by
  rw [List.map_map]
  apply List.map_congr_left
  intro r _
  cases r with
  | nil => simp [Value.falsy]
  | cons p rest => simp [Value.falsy]

theorem dropna_of_notna {cells : List Value}
    (h : ∀ v ∈ cells, v.isna = false) : dropna cells = cells := by
  unfold dropna
  rw [List.filter_eq_self]
  intro v hv
  simp [h v hv]

theorem classify_map_dict {recs : List (List (String × Value))}
    (h : recs ≠ []) : classify (recs.map Value.dict) = .cdict := by
  obtain ⟨r0, rest, rfl⟩ := List.exists_cons_of_ne_nil h
  apply classify_eval_dict
  unfold firstElement
  rw [dropna_of_notna (by
    intro v hv
    obtain ⟨r, -, rfl⟩ := List.mem_map.mp hv
    rfl)]
  rfl

theorem pdRecordsFromValues_of_allDicts {rows : List Value}
    {recs : List (List (String × Value))} {n : Nat}
    (h : allDicts rows = some recs) :
    pdRecordsFromValues n rows = pdRecordsFromAssocs n recs := by
  unfold pdRecordsFromValues
  rw [h]

/-- C4: a table with a dict-valued column `col` (each row a record with flat
values) flattens to the other columns followed by one new column
`col.<k>` per key `k` (in order of first appearance), holding the per-row
values at `k` (`NaN` where a row lacks the key); the original column `col` is
gone from the result.  A column produced from a list of records instead gets
the `col.*.<k>` naming, as the closing concrete conjunct shows. -/
theorem c4_dict_column_expansion
    (pre post : List (String × List Value)) (col : String)
    (recs : List (List (String × Value))) (n : Nat)
    (hrecs : recs ≠ [])
    (hn : recs.length = n)
    (hvals : ∀ r ∈ recs, ∀ p ∈ r, Value.depth p.2 = 0)
    (hpre : ∀ c ∈ pre, ∀ v ∈ c.2, Value.depth v = 0)
    (hpost : ∀ c ∈ post, ∀ v ∈ c.2, Value.depth v = 0)
    (hname : col ∉ (pre ++ post).map Prod.fst) :
    flatten_dataframe ⟨n, pre ++ [(col, recs.map Value.dict)] ++ post⟩ =
      .ok ⟨n, (pre ++ post) ++ ((keysUnion recs).map fun k =>
        (col ++ "." ++ k, recs.map fun r => (lookupv r k).getD Value.na))⟩ ∧
    col ∉ DF.names ⟨n, (pre ++ post) ++ ((keysUnion recs).map fun k =>
        (col ++ "." ++ k, recs.map fun r => (lookupv r k).getD Value.na))⟩ ∧
    flatten_dataframe ⟨2, [("c", [.vlist [.dict [("k", .prim "1")],
        .dict [("k", .prim "2")]], .vlist [.dict [("k", .prim "3")]]])]⟩ =
      .ok ⟨2, [("c.*.k", [.vlist [.prim "1", .prim "2"],
        .vlist [.prim "3"]])]⟩ := by
  have hccol : classify (recs.map Value.dict) = .cdict := classify_map_dict hrecs
  have hcpre : ∀ c ∈ pre, classify c.2 = .cunmod := fun c hc =>
    classify_cunmod_of_depth0 (hpre c hc)
  have hcpost : ∀ c ∈ post, classify c.2 = .cunmod := fun c hc =>
    classify_cunmod_of_depth0 (hpost c hc)
  have hfpre_d : pre.filter (fun c => classify c.2 == CClass.cdict) = [] :=
    List.filter_eq_nil_iff.mpr (fun c hc => by simp [hcpre c hc])
  have hfpost_d : post.filter (fun c => classify c.2 == CClass.cdict) = [] :=
    List.filter_eq_nil_iff.mpr (fun c hc => by simp [hcpost c hc])
  have hfpre_l : pre.filter (fun c => classify c.2 == CClass.clist) = [] :=
    List.filter_eq_nil_iff.mpr (fun c hc => by simp [hcpre c hc])
  have hfpost_l : post.filter (fun c => classify c.2 == CClass.clist) = [] :=
    List.filter_eq_nil_iff.mpr (fun c hc => by simp [hcpost c hc])
  have hfpre_u : pre.filter (fun c => classify c.2 == CClass.cunmod) = pre :=
    List.filter_eq_self.mpr (fun c hc => by simp [hcpre c hc])
  have hfpost_u : post.filter (fun c => classify c.2 == CClass.cunmod) = post :=
    List.filter_eq_self.mpr (fun c hc => by simp [hcpost c hc])
  have hbd : (columns_analysis
      ⟨n, pre ++ [(col, recs.map Value.dict)] ++ post⟩).1 =
      [(col, recs.map Value.dict)] := by
    simp only [columns_analysis, List.filter_append, List.filter_cons,
      hfpre_d, hfpost_d]
    simp [hccol]
  have hbl : (columns_analysis
      ⟨n, pre ++ [(col, recs.map Value.dict)] ++ post⟩).2.1 = [] := by
    simp only [columns_analysis, List.filter_append, List.filter_cons,
      hfpre_l, hfpost_l]
    simp [hccol]
  have hbu : (columns_analysis
      ⟨n, pre ++ [(col, recs.map Value.dict)] ++ post⟩).2.2 =
      pre ++ post := by
    simp only [columns_analysis, List.filter_append, List.filter_cons,
      hfpre_u, hfpost_u]
    simp [hccol]
  have hns : isFlat ⟨n, pre ++ [(col, recs.map Value.dict)] ++ post⟩ = false := by
    unfold isFlat
    rw [hbu, beq_eq_false_iff_ne]
    simp only [DF.cols, List.length_append, List.length_cons,
      List.length_nil]
    omega
  have hdict : dictColumnDF n col (recs.map Value.dict) =
      .ok ⟨n, (keysUnion recs).map fun k =>
        (col ++ "." ++ k, recs.map fun r => (lookupv r k).getD Value.na)⟩ := by
    unfold dictColumnDF
    simp only []
    rw [falsy_replace_dicts,
      pdRecordsFromValues_of_allDicts (allDicts_map_dict recs)]
    have hpd : pdRecordsFromAssocs n recs =
        .ok ⟨n, (keysUnion recs).map fun k =>
          (k, recs.map fun r => (lookupv r k).getD Value.na)⟩ := by
      unfold pdRecordsFromAssocs
      rw [if_neg (by simp [List.isEmpty_iff, hrecs]), if_neg (by simp [hn])]
    rw [hpd, exceptBind_ok]
    unfold prefixedCols
    simp [List.map_map]
  have hnew : flattenNew ⟨n, pre ++ [(col, recs.map Value.dict)] ++ post⟩ =
      .ok ⟨n, (keysUnion recs).map fun k =>
        (col ++ "." ++ k, recs.map fun r => (lookupv r k).getD Value.na)⟩ := by
    unfold flattenNew
    simp only []
    rw [hbl, hbd]
    simp only [buildColumnDfs]
    rw [exceptBind_ok, hdict, exceptBind_ok, exceptBind_ok, exceptBind_ok]
    simp [concatAll]
  have hndflat : isFlat ⟨n, (keysUnion recs).map fun k =>
      (col ++ "." ++ k, recs.map fun r => (lookupv r k).getD Value.na)⟩ =
      true := by
    rw [isFlat_iff]
    intro c hc
    obtain ⟨k, -, rfl⟩ := List.mem_map.mp hc
    apply classify_cunmod_of_depth0
    intro v hv
    obtain ⟨r, hr, rfl⟩ := List.mem_map.mp hv
    cases hl : lookupv r k with
    | none => simp [hl, Value.depth]
    | some w =>
      obtain ⟨p, hp, rfl⟩ := mem_of_lookupv hl
      simp only [hl, Option.getD_some]
      exact hvals r hr p hp
  have hd1 : 1 ≤ DF.depth ⟨n, pre ++ [(col, recs.map Value.dict)] ++ post⟩ := by
    have h1 := classify_cdict_one_le hccol
    have h2 : Value.listDepth (recs.map Value.dict) ≤
        DF.depth ⟨n, pre ++ [(col, recs.map Value.dict)] ++ post⟩ :=
      df_depth_le_iff.mp (Nat.le_refl _) (col, recs.map Value.dict) (by simp)
    omega
  refine ⟨?_, ?_, by rfl⟩
  · unfold flatten_dataframe
    obtain ⟨k', hk'⟩ : ∃ k',
        DF.depth ⟨n, pre ++ [(col, recs.map Value.dict)] ++ post⟩ = k' + 1 :=
      ⟨_, (Nat.succ_pred_eq_of_pos hd1).symm⟩
    rw [hk', flattenAux_succ_ok hns hnew, flattenAux_flat hndflat]
    simp only [flattenGlue, flattenCombine, concatAll, Option.getD_some]
    rw [hbu]
    simp
  · intro hmem
    unfold DF.names at hmem
    rw [List.map_append] at hmem
    rcases List.mem_append.mp hmem with h1 | h2
    · exact hname h1
    · obtain ⟨p, hp, hpe⟩ := List.mem_map.mp h2
      obtain ⟨k, -, rfl⟩ := List.mem_map.mp hp
      have hlen := congrArg String.length hpe
      have hdot : (".").length = 1 := rfl
      simp only [String.length_append, hdot] at hlen
      omega

/-- Witness for `c4_dict_column_expansion` at a concrete two-row table. -/
theorem c4_witness :
    flatten_dataframe ⟨2, [("x", [.prim "u", .prim "v"]),
        ("col", [.dict [("a", .prim "1"), ("b", .prim "2")],
          .dict [("a", .prim "3")]])]⟩ =
      .ok ⟨2, [("x", [.prim "u", .prim "v"]),
        ("col.a", [.prim "1", .prim "3"]),
        ("col.b", [.prim "2", .na])]⟩ ∧
    "col" ∉ DF.names ⟨2, [("x", [.prim "u", .prim "v"]),
        ("col.a", [.prim "1", .prim "3"]),
        ("col.b", [.prim "2", .na])]⟩ ∧
    flatten_dataframe ⟨2, [("c", [.vlist [.dict [("k", .prim "1")],
        .dict [("k", .prim "2")]], .vlist [.dict [("k", .prim "3")]]])]⟩ =
      .ok ⟨2, [("c.*.k", [.vlist [.prim "1", .prim "2"],
        .vlist [.prim "3"]])]⟩ :=
  c4_dict_column_expansion [("x", [.prim "u", .prim "v"])] [] "col"
    [[("a", .prim "1"), ("b", .prim "2")], [("a", .prim "3")]] 2
    (by simp) rfl
    (by
      simp only [List.mem_cons, List.not_mem_nil, or_false]
      rintro r (rfl | rfl) p hp <;>
        · simp only [List.mem_cons, List.not_mem_nil, or_false] at hp
          rcases hp with rfl | rfl <;> rfl)
    (by
      simp only [List.mem_cons, List.not_mem_nil, or_false]
      rintro c rfl v hv
      simp only [List.mem_cons, List.not_mem_nil, or_false] at hv
      rcases hv with rfl | rfl <;> rfl)
    (by simp) (by simp)

/-! ## Claims C5 and C6: the mapped view -/

theorem contains_iff_mem_str {l : List String} {f : String} :
    l.contains f = true ↔ f ∈ l := by
  rw [List.contains_iff_exists_mem_beq]
  constructor
  · rintro ⟨b, hb, hbeq⟩
    rw [beq_iff_eq] at hbeq
    exact hbeq ▸ hb
  · intro h
    exact ⟨f, h, beq_iff_eq.mpr rfl⟩

theorem checkEntries_ok_of_all {df : DF} {m : Mapping}
    (h : ∀ e ∈ m, ∀ f ∈ targetsAsList e.2, f ∈ df.names) :
    checkEntries df m = .ok (m.map fun e => (e.1, targetsAsList e.2)) := by
  induction m with
  | nil => rfl
  | cons e rest ih =>
    obtain ⟨p, t⟩ := e
    simp only [checkEntries]
    have hall : ((targetsAsList t).all fun f => df.names.contains f) = true := by
      rw [List.all_eq_true]
      intro f hf
      exact contains_iff_mem_str.mpr (h (p, t) (List.mem_cons_self _ _) f hf)
    rw [if_pos hall,
      ih (fun e he => h e (List.mem_cons_of_mem _ he)), exceptBind_ok]
    rfl

theorem checkEntries_all_of_ok {df : DF} {m : Mapping}
    {es : List (String × List String)} (h : checkEntries df m = .ok es) :
    ∀ e ∈ m, ∀ f ∈ targetsAsList e.2, f ∈ df.names := by
  induction m generalizing es with
  | nil => intro e he; cases he
  | cons e0 rest ih =>
    obtain ⟨p, t⟩ := e0
    simp only [checkEntries] at h
    cases hall : ((targetsAsList t).all fun f => df.names.contains f) with
    | false =>
      rw [if_neg (by rw [hall]; exact Bool.false_ne_true)] at h
      cases h
    | true =>
      rw [if_pos hall] at h
      cases hr : checkEntries df rest with
      | error e => rw [hr, exceptBind_error] at h; cases h
      | ok r =>
        intro e he f hf
        rcases List.mem_cons.mp he with rfl | hmem
        · exact contains_iff_mem_str.mp (List.all_eq_true.mp hall f hf)
        · exact ih hr e hmem f hf

theorem checkEntries_error {df : DF} {m : Mapping} {err : PyErr}
    (h : checkEntries df m = .error err) :
    ∃ e ∈ m, (∃ f ∈ targetsAsList e.2, f ∉ df.names) ∧
      err = .keyError (didNotFindMsg (targetsAsList e.2)) := by
  induction m with
  | nil => simp [checkEntries] at h
  | cons e0 rest ih =>
    obtain ⟨p, t⟩ := e0
    simp only [checkEntries] at h
    cases hall : ((targetsAsList t).all fun f => df.names.contains f) with
    | false =>
      rw [if_neg (by rw [hall]; exact Bool.false_ne_true)] at h
      simp only [Except.error.injEq] at h
      subst h
      have hex : ∃ f ∈ targetsAsList t, ¬df.names.contains f = true := by
        by_contra hcon
        push_neg at hcon
        rw [show ((targetsAsList t).all fun f => df.names.contains f) = true
          from List.all_eq_true.mpr (fun f hf => by simpa using hcon f hf)] at hall
        cases hall
      obtain ⟨f, hf, hnc⟩ := hex
      refine ⟨(p, t), List.mem_cons_self _ _, ⟨f, hf, ?_⟩, rfl⟩
      intro hmem
      exact hnc (contains_iff_mem_str.mpr hmem)
    | true =>
      rw [if_pos hall] at h
      cases hr : checkEntries df rest with
      | error e =>
        rw [hr, exceptBind_error] at h
        simp only [Except.error.injEq] at h
        subst h
        obtain ⟨e, he, hfe, herr⟩ := ih hr
        exact ⟨e, List.mem_cons_of_mem _ he, hfe, herr⟩
      | ok r => rw [hr, exceptBind_ok] at h; cases h

/-- C6: the mapped view fails exactly when the mapping is empty (with the
instructive `ValueError`) or some named source column is absent (with a
`KeyError` naming the offending entry's source columns); a non-empty mapping
over existing columns builds the view without raising.  (The row-wise apply
is recorded lazily and cannot raise here.) -/
theorem c6_mapped_errors (df : DF) (mapping : Mapping) :
    ((∃ v, to_mapped_dataframe df mapping = .ok v) ↔
      (mapping ≠ [] ∧ ∀ e ∈ mapping, ∀ f ∈ targetsAsList e.2, f ∈ df.names)) ∧
    (mapping = [] → to_mapped_dataframe df mapping =
      .error (.valueError needMappingMsg)) ∧
    (∀ err, to_mapped_dataframe df mapping = .error err → mapping ≠ [] →
      ∃ e ∈ mapping, (∃ f ∈ targetsAsList e.2, f ∉ df.names) ∧
        err = .keyError (didNotFindMsg (targetsAsList e.2))) := by
  refine ⟨⟨?_, ?_⟩, ?_, ?_⟩
  · rintro ⟨v, hv⟩
    unfold to_mapped_dataframe at hv
    cases mapping with
    | nil => simp at hv
    | cons e rest =>
      rw [if_neg (by simp)] at hv
      cases hc : checkEntries df (e :: rest) with
      | error err => rw [hc, exceptBind_error] at hv; cases hv
      | ok es =>
        exact ⟨by simp, checkEntries_all_of_ok hc⟩
  · rintro ⟨hne, hall⟩
    unfold to_mapped_dataframe
    rw [if_neg (by simp [hne]), checkEntries_ok_of_all hall, exceptBind_ok]
    exact ⟨_, rfl⟩
  · intro hm
    unfold to_mapped_dataframe
    rw [if_pos (by simp [hm])]
  · intro err herr hne
    unfold to_mapped_dataframe at herr
    rw [if_neg (by simp [hne])] at herr
    cases hc : checkEntries df mapping with
    | error e =>
      rw [hc, exceptBind_error] at herr
      simp only [Except.error.injEq] at herr
      subst herr
      exact checkEntries_error hc
    | ok es => rw [hc, exceptBind_ok] at herr; cases herr

theorem mapExcept_ok_of {α β : Type} {f : α → Except PyErr β} {g : α → β}
    {l : List α} (h : ∀ a ∈ l, f a = .ok (g a)) :
    mapExcept f l = .ok (l.map g) := by
  induction l with
  | nil => rfl
  | cons a rest ih =>
    simp only [mapExcept]
    rw [h a (List.mem_cons_self _ _), exceptBind_ok,
      ih (fun a ha => h a (List.mem_cons_of_mem _ ha)), exceptBind_ok]
    rfl

theorem to_dict_or_any_spec {df : DF} {feats : List String} (i : Nat)
    (hne : feats ≠ []) :
    _to_dict_or_any (feats.map fun f => (f, (getCol df f).getD i .na)) =
      .ok (specMappedValue df feats i) := by
  unfold _to_dict_or_any specMappedValue
  cases feats with
  | nil => exact absurd rfl hne
  | cons f rest =>
    cases rest with
    | nil => simp
    | cons f2 rest2 => simp

theorem mappedCells_spec {df : DF} {feats : List String} (hne : feats ≠ []) :
    mappedCells df feats =
      .ok ((List.range df.nrows).map fun i => specMappedValue df feats i) := by
  unfold mappedCells
  exact mapExcept_ok_of fun i _ => to_dict_or_any_spec i hne

theorem getCol_dfAssign_self {df : DF} {k : String} {cells : List Value} :
    getCol (dfAssign df k cells) k = cells := by
  unfold dfAssign
  cases hf : (df.cols.find? fun c => c.1 == k).isSome with
  | true =>
    rw [if_pos rfl]
    unfold getCol
    obtain ⟨c, hc⟩ := Option.isSome_iff_exists.mp hf
    simp only []
    rw [List.find?_map]
    rw [show ((fun (c : String × List Value) => c.1 == k) ∘
        fun c => if c.1 == k then (c.1, cells) else c) =
        (fun (c : String × List Value) => c.1 == k) from funext fun x => by
      cases hx : x.1 == k <;> simp [Function.comp, hx]]
    rw [hc]
    have hceq : c.1 = k := by simpa using List.find?_some hc
    simp only [Option.map_some']
    rw [if_pos (by simpa using hceq)]
  | false =>
    rw [if_neg Bool.false_ne_true]
    unfold getCol
    simp only []
    rw [List.find?_append]
    have hnone : df.cols.find? (fun c => c.1 == k) = none := by
      cases ho : df.cols.find? fun c => c.1 == k
      · rfl
      · rw [ho] at hf; cases hf
    rw [hnone]
    simp

theorem getCol_dfAssign_other {df : DF} {k k' : String} {cells : List Value}
    (hne : k' ≠ k) : getCol (dfAssign df k cells) k' = getCol df k' := by
  unfold dfAssign
  cases hf : (df.cols.find? fun c => c.1 == k).isSome with
  | true =>
    rw [if_pos rfl]
    unfold getCol
    simp only []
    rw [List.find?_map]
    rw [show ((fun (c : String × List Value) => c.1 == k') ∘
        fun c => if c.1 == k then (c.1, cells) else c) =
        (fun (c : String × List Value) => c.1 == k') from funext fun x => by
      cases hx : x.1 == k
      · simp [Function.comp, hx]
      · have : x.1 = k := by simpa using hx
        simp [Function.comp, hx, this, beq_eq_false_iff_ne.mpr hne,
          (beq_eq_false_iff_ne (a := k) (b := k')).mpr fun hc => hne hc.symm]]
    cases ho : df.cols.find? fun c => c.1 == k' with
    | none => rfl
    | some c =>
      have hck : c.1 = k' := by simpa using List.find?_some ho
      simp only [Option.map_some']
      rw [if_neg (by rw [hck]; simp [hne])]
  | false =>
    rw [if_neg Bool.false_ne_true]
    unfold getCol
    simp only []
    rw [List.find?_append]
    cases ho : df.cols.find? fun c => c.1 == k' with
    | some c => simp
    | none =>
      simp only [Option.none_or]
      rw [List.find?_cons_of_neg _ (by
        simp [beq_eq_false_iff_ne.mpr fun hc : k = k' => hne hc.symm])]
      rfl

theorem dfAssign_nrows {df : DF} {k : String} {cells : List Value} :
    (dfAssign df k cells).nrows = df.nrows := by
  unfold dfAssign
  cases hf : (df.cols.find? fun c => c.1 == k).isSome with
  | true => rw [if_pos rfl]
  | false => rw [if_neg Bool.false_ne_true]

theorem assignLoop_getCol_not_mem {src : DF} {k : String} :
    ∀ {entries : List (String × List String)} {acc final : DF},
    assignLoop src entries acc = .ok final →
    k ∉ entries.map Prod.fst →
    getCol final k = getCol acc k := by
  intro entries
  induction entries with
  | nil =>
    intro acc final h _
    simp only [assignLoop, Except.ok.injEq] at h
    rw [← h]
  | cons e rest ih =>
    intro acc final h hk
    obtain ⟨p, feats⟩ := e
    simp only [assignLoop] at h
    cases hc : mappedCells src feats with
    | error err => rw [hc, exceptBind_error] at h; cases h
    | ok cells =>
      rw [hc, exceptBind_ok] at h
      have hk2 : k ∉ rest.map Prod.fst := fun hm =>
        hk (List.mem_cons_of_mem _ hm)
      have hkp : k ≠ p := fun hcon => hk (by simp [hcon])
      rw [ih h hk2, getCol_dfAssign_other hkp]

theorem assignLoop_nrows {src : DF} :
    ∀ {entries : List (String × List String)} {acc final : DF},
    assignLoop src entries acc = .ok final → final.nrows = acc.nrows := by
  intro entries
  induction entries with
  | nil =>
    intro acc final h
    simp only [assignLoop, Except.ok.injEq] at h
    rw [← h]
  | cons e rest ih =>
    intro acc final h
    obtain ⟨p, feats⟩ := e
    simp only [assignLoop] at h
    cases hc : mappedCells src feats with
    | error err => rw [hc, exceptBind_error] at h; cases h
    | ok cells =>
      rw [hc, exceptBind_ok] at h
      rw [ih h, dfAssign_nrows]

theorem assignLoop_props {src : DF} {g : List String → List Value} :
    ∀ {entries : List (String × List String)} {acc : DF},
    (∀ e ∈ entries, mappedCells src e.2 = .ok (g e.2)) →
    (entries.map Prod.fst).Nodup →
    ∃ final, assignLoop src entries acc = .ok final ∧
      final.nrows = acc.nrows ∧
      (entries.map Prod.fst).map (fun k => (k, getCol final k)) =
        entries.map (fun e => (e.1, g e.2)) := by
  intro entries
  induction entries with
  | nil => exact fun _ _ => ⟨_, rfl, rfl, rfl⟩
  | cons e rest ih =>
    intro acc hok hnodup
    obtain ⟨p, feats⟩ := e
    simp only [assignLoop]
    rw [hok (p, feats) (List.mem_cons_self _ _), exceptBind_ok]
    have hrest : ∀ e ∈ rest, mappedCells src e.2 = .ok (g e.2) :=
      fun e he => hok e (List.mem_cons_of_mem _ he)
    have hnd : p ∉ rest.map Prod.fst ∧ (rest.map Prod.fst).Nodup := by
      rw [List.map_cons] at hnodup
      exact List.nodup_cons.mp hnodup
    obtain ⟨final, hfin, hnr, hmap⟩ := @ih (dfAssign acc p (g feats))
      hrest hnd.2
    refine ⟨final, hfin, by rw [hnr, dfAssign_nrows], ?_⟩
    simp only [List.map_cons]
    rw [assignLoop_getCol_not_mem hfin hnd.1, getCol_dfAssign_self, hmap]

/-- C5: with a non-empty mapping whose entries each name at least one
existing source column, `to_mapped_dataframe` returns a view whose
computation yields exactly the mapped logical columns, in mapping order,
where each row's value is the bare underlying value when exactly one source
column was named and the record keyed by the source column names when more
than one was named (`specMappedValue` states that contract). -/
theorem c5_mapped_projection (df : DF) (mapping : Mapping)
    (hne : mapping ≠ [])
    (hnodup : (mapping.map Prod.fst).Nodup)
    (hfe : ∀ e ∈ mapping, targetsAsList e.2 ≠ [])
    (hex : ∀ e ∈ mapping, ∀ f ∈ targetsAsList e.2, f ∈ df.names) :
    ∃ v, to_mapped_dataframe df mapping = .ok v ∧
      computeMapped v = .ok ⟨df.nrows, mapping.map fun e =>
        (e.1, (List.range df.nrows).map fun i =>
          specMappedValue df (targetsAsList e.2) i)⟩ := by
  have hv : to_mapped_dataframe df mapping =
      .ok ⟨df, mapping.map fun e => (e.1, targetsAsList e.2)⟩ := by
    unfold to_mapped_dataframe
    rw [if_neg (by simp [hne]), checkEntries_ok_of_all hex, exceptBind_ok]
  refine ⟨_, hv, ?_⟩
  unfold computeMapped
  simp only []
  have hok : ∀ e ∈ mapping.map fun e => (e.1, targetsAsList e.2),
      mappedCells df e.2 = .ok ((List.range df.nrows).map fun i =>
        specMappedValue df e.2 i) := by
    intro e he
    obtain ⟨e0, he0, rfl⟩ := List.mem_map.mp he
    exact mappedCells_spec (hfe e0 he0)
  have hnodup2 : (((mapping.map fun e => (e.1, targetsAsList e.2)).map
      Prod.fst)).Nodup := by
    rw [List.map_map]
    exact hnodup
  obtain ⟨final, hfin, hnr, hmap⟩ := assignLoop_props
    (g := fun feats => (List.range df.nrows).map fun i =>
      specMappedValue df feats i) hok hnodup2
  rw [hfin, exceptBind_ok]
  unfold selectByNames
  have hcols : ((mapping.map fun e => (e.1, targetsAsList e.2)).map
      Prod.fst).map (fun k => (k, getCol final k)) =
      mapping.map fun e => (e.1, (List.range df.nrows).map fun i =>
        specMappedValue df (targetsAsList e.2) i) := by
    rw [hmap, List.map_map]
    rfl
  rw [hcols, hnr]

/-- Witness for `c5_mapped_projection`: a two-column entry produces a record
per row, a single-column entry the bare value, and only the mapped columns
remain. -/
theorem c5_witness :
    ∃ v, to_mapped_dataframe
        ⟨2, [("a", [.prim "1", .prim "2"]), ("b", [.prim "x", .prim "y"]),
          ("c", [.prim "z", .prim "w"])]⟩
        [("t", .multi ["a", "b"]), ("l", .single "c")] = .ok v ∧
      computeMapped v = .ok ⟨2,
        [("t", [.dict [("a", .prim "1"), ("b", .prim "x")],
          .dict [("a", .prim "2"), ("b", .prim "y")]]),
         ("l", [.prim "z", .prim "w"])]⟩ :=
  c5_mapped_projection
    ⟨2, [("a", [.prim "1", .prim "2"]), ("b", [.prim "x", .prim "y"]),
      ("c", [.prim "z", .prim "w"])]⟩
    [("t", .multi ["a", "b"]), ("l", .single "c")]
    (by simp) (by decide) (by simp [targetsAsList])
    (by simp [targetsAsList, DF.names])

/-! ## Claim C7: format lookup -/

/-- C7: for every registry state (including keys added at runtime through
`add_supported_format`), any query whose lowercased and stripped form equals
a registered key retrieves exactly the `(reader, default parameters)` pair
registered under that key. -/
theorem c7_format_lookup (reg : Registry) (k : String) (rp : Reader × Params)
    (q : String) (hreg : regGet reg k = some rp)
    (hq : pyStrip (pyLower q) = k) :
    _find_reader reg (some q) = .ok rp := by
  show (match regGet reg (pyStrip (pyLower q)) with
    | some rp => Except.ok rp
    | none =>
        Except.error (PyErr.typeError ("Format " ++ q ++
          " not supported. Supported formats are: " ++
          String.intercalate ", " (reg.map fun p => p.1)))) = Except.ok rp
  rw [hq, hreg]

/-- Witness for `c7_format_lookup` on a dynamically registered key queried
with different case and surrounding whitespace. -/
theorem c7_witness :
    regGet (add_supported_format SUPPORTED_FORMATS "myfmt" (.custom 7) none)
      "myfmt" = some (.custom 7, []) ∧
    pyStrip (pyLower "  MYfmt ") = "myfmt" ∧
    _find_reader (add_supported_format SUPPORTED_FORMATS "myfmt" (.custom 7)
      none) (some "  MYfmt ") = .ok (.custom 7, []) :=
  ⟨by rfl, by rfl,
    c7_format_lookup _ "myfmt" (.custom 7, []) "  MYfmt " (by rfl) (by rfl)⟩

/-! ## Claim C10: construction without source and format -/

theorem exceptPure {α : Type} (a : α) : (pure a : Except PyErr α) = .ok a :=
  rfl

/-- C10: constructing a `DataSource` with neither a source nor a format
raises before any reader runs (the outcome is independent of the reader
function and of the registry), and the exception is the `AttributeError`
from calling `.lower()` on the missing format, not the descriptive
unsupported-format `TypeError`. -/
theorem c10_none_format_attribute_error (reg : Registry)
    (runReader : Reader → Params → Except PyErr DF) :
    dataSourceInit reg none none runReader =
      .error (.attributeError "NoneType object has no attribute lower") ∧
    ∀ m, dataSourceInit reg none none runReader ≠
      .error (.typeError m) := by
  have h1 : dataSourceInit reg none none runReader =
      .error (.attributeError "NoneType object has no attribute lower") := by
    unfold dataSourceInit dataSourceSelectReader
    rw [if_neg (by
      intro hcon
      simpa [sourceTruthy] using hcon.2)]
    rw [exceptPure, exceptBind_ok]
    rfl
  refine ⟨h1, fun m hcon => ?_⟩
  rw [h1] at hcon
  simp at hcon

/-! ## Claim C8: relative-path rewriting -/

/-- C8 counterexample: a relative path string under the recognised key
`"path"`, nested inside a dict that sits inside a list, is left untouched —
`make_paths_relative` never descends into dicts inside lists — although the
string itself satisfies every rewrite condition. -/
theorem c8_counterexample :
    make_paths_relative "dir" defaultPathKeys
        [("a", .list [.dict [("path", .str "x.csv")]])] =
      [("a", .list [.dict [("path", .str "x.csv")]])] ∧
    is_relative_file_system_path "x.csv" = true ∧
    pyJoin "dir" "x.csv" = "dir/x.csv" := by
  exact ⟨by rfl, by rfl, by rfl⟩

theorem pair_eta_fst {α β : Type} (p : α × β) (a : α) (h : p.1 = a) :
    p = (a, p.2) := by
  rw [← h]

theorem mprEntry_fst (dirname : String) (pk : List String) (k : String)
    (v : Cfg) : (mprEntry dirname pk k v).1 = k := by
  unfold mprEntry
  simp only []
  split
  · rfl
  · split
    · split <;> rfl
    · rfl
    · rfl
    · rfl

theorem mprEntry_dict (dirname : String) (pk : List String) (k : String)
    (fs : List (String × Cfg)) :
    mprEntry dirname pk k (.dict fs) =
      (k, .dict (make_paths_relative dirname pk fs)) := by
  unfold mprEntry
  simp only []
  split
  · rfl
  · rfl

theorem mprEntry_pathkey (dirname : String) (pk : List String) (k : String)
    (v : Cfg) (hk : k ∈ pk) :
    (mprEntry dirname pk k v).2 = transformLeaf dirname pk v := by
  have hgate : ¬(¬pk.isEmpty = true ∧ k ∉ pk) := fun h => h.2 hk
  cases v with
  | str s =>
    unfold mprEntry transformLeaf
    simp only []
    rw [if_neg hgate]
    split <;> rfl
  | other =>
    unfold mprEntry transformLeaf
    simp only []
    rw [if_neg hgate]
  | dict fs =>
    unfold mprEntry transformLeaf
    simp only []
    rw [if_neg hgate]
  | list es =>
    unfold mprEntry transformLeaf
    simp only []
    rw [if_neg hgate]

theorem cfgGet_cons {k0 k : String} {v0 : Cfg} {rest : List (String × Cfg)} :
    cfgGet ((k0, v0) :: rest) k =
      if k0 == k then some v0 else cfgGet rest k := by
  cases hk0 : k0 == k with
  | true =>
    unfold cfgGet
    rw [List.find?_cons_of_pos (p := fun q : String × Cfg => q.1 == k) _
      (show ((k0, v0).1 == k) = true from hk0)]
    rfl
  | false =>
    unfold cfgGet
    rw [List.find?_cons_of_neg (p := fun q : String × Cfg => q.1 == k) _ (by
      show ¬((k0, v0).1 == k) = true
      simp [hk0])]
    rfl

theorem cfgGet_mpr {dirname : String} {pk : List String}
    (cfg : List (String × Cfg)) (k : String) :
    cfgGet (make_paths_relative dirname pk cfg) k =
      (cfgGet cfg k).map fun v => (mprEntry dirname pk k v).2 := by
  induction cfg with
  | nil => rfl
  | cons e rest ih =>
    obtain ⟨k0, v0⟩ := e
    simp only [make_paths_relative]
    rw [pair_eta_fst (mprEntry dirname pk k0 v0) k0
      (mprEntry_fst dirname pk k0 v0)]
    rw [cfgGet_cons, cfgGet_cons]
    cases hk0 : k0 == k with
    | true =>
      rw [if_pos rfl, if_pos rfl]
      have : k0 = k := by simpa using hk0
      subst this
      rfl
    | false =>
      rw [if_neg Bool.false_ne_true, if_neg Bool.false_ne_true]
      exact ih

/-- C8 amended: along any chain of nested *dictionary* values, the value of
a recognised path key is rewritten as the claim says — a relative-path
string (or, element-wise, a list) is prefixed with the YAML directory, and
absolute, URI-scheme or extension-less strings are untouched
(`transformLeaf`); dicts inside lists are not traversed. -/
theorem c8_path_rewrite (dirname : String) (cfg : List (String × Cfg))
    (ks : List String) (k : String) (v : Cfg)
    (hk : k ∈ defaultPathKeys)
    (hfound : lookupPath (ks ++ [k]) cfg = some v) :
    lookupPath (ks ++ [k]) (make_paths_relative dirname defaultPathKeys cfg) =
      some (transformLeaf dirname defaultPathKeys v) := by
  induction ks generalizing cfg with
  | nil =>
    simp only [List.nil_append] at hfound ⊢
    have h2 : cfgGet cfg k = some v := hfound
    show cfgGet (make_paths_relative dirname defaultPathKeys cfg) k =
      some (transformLeaf dirname defaultPathKeys v)
    rw [cfgGet_mpr, h2]
    simp only [Option.map_some']
    rw [mprEntry_pathkey dirname defaultPathKeys k v hk]
  | cons k1 ks' ih =>
    rw [List.cons_append] at hfound ⊢
    cases hks : ks' ++ [k] with
    | nil => simp at hks
    | cons t ts =>
      rw [hks] at hfound
      have h2 : (match cfgGet cfg k1 with
          | some (.dict fs') => lookupPath (t :: ts) fs'
          | _ => none) = some v := hfound
      cases hg : cfgGet cfg k1 with
      | none =>
        rw [hg] at h2
        have h3 : (none : Option Cfg) = some v := h2
        cases h3
      | some v0 =>
        cases v0 with
        | dict fs' =>
          rw [hg] at h2
          have h3 : lookupPath (t :: ts) fs' = some v := h2
          have hgm : cfgGet (make_paths_relative dirname defaultPathKeys cfg)
              k1 = some (Cfg.dict
                (make_paths_relative dirname defaultPathKeys fs')) := by
            rw [cfgGet_mpr, hg]
            simp only [Option.map_some']
            rw [show (mprEntry dirname defaultPathKeys k1 (Cfg.dict fs')).2 =
              Cfg.dict (make_paths_relative dirname defaultPathKeys fs') from
              by rw [mprEntry_dict]]
          show (match cfgGet (make_paths_relative dirname defaultPathKeys cfg)
              k1 with
            | some (.dict fs') => lookupPath (t :: ts) fs'
            | _ => none) = some (transformLeaf dirname defaultPathKeys v)
          rw [hgm]
          rw [← hks] at h3 ⊢
          exact ih fs' h3
        | str s =>
          rw [hg] at h2
          have h3 : (none : Option Cfg) = some v := h2
          cases h3
        | other =>
          rw [hg] at h2
          have h3 : (none : Option Cfg) = some v := h2
          cases h3
        | list es =>
          rw [hg] at h2
          have h3 : (none : Option Cfg) = some v := h2
          cases h3

/-- Witness for `c8_path_rewrite`: a path two dictionary levels deep is
rewritten relative to the YAML directory. -/
theorem c8_witness :
    "path" ∈ defaultPathKeys ∧
    lookupPath ["outer", "path"]
      [("outer", .dict [("path", .str "x.csv"), ("fmt", .str "csv")])] =
      some (.str "x.csv") ∧
    lookupPath ["outer", "path"]
      (make_paths_relative "dir" defaultPathKeys
        [("outer", .dict [("path", .str "x.csv"), ("fmt", .str "csv")])]) =
      some (transformLeaf "dir" defaultPathKeys (.str "x.csv")) :=
  ⟨by decide, by rfl,
    c8_path_rewrite "dir"
      [("outer", .dict [("path", .str "x.csv"), ("fmt", .str "csv")])]
      ["outer"] "path" (.str "x.csv") (by decide) (by rfl)⟩

/-! ## Claim C9: row dictionaries -/

/-- C9 counterexample: in a mapped bag whose mapping key is literally `id`,
the row dict's `id` entry holds the mapped column's value (here `"v"`), not
the row index (here `"7"`): the column pair overwrites the index pair inside
the `dict(...)` constructor of `_row2dict`. -/
theorem c9_counterexample :
    dsToMappedBag ⟨1, [("a", [.prim "v"])]⟩ [("id", .single "a")]
      [.prim "7"] = .ok [[("id", .prim "v"), ("resource", .prim "None")]] ∧
    Value.prim "v" ≠ Value.prim "7" := by
  refine ⟨by rfl, fun h => ?_⟩
  injection h with h2
  exact absurd h2 (by decide)

theorem keyFind_isSome_iff {d : List (String × Value)} {k : String} :
    (d.find? fun q => q.1 == k).isSome = true ↔ k ∈ d.map Prod.fst := by
  rw [show ((d.find? fun q => q.1 == k).isSome = true) ↔
    (d.find? fun q => q.1 == k).isSome from by simp]
  rw [List.find?_isSome]
  constructor
  · rintro ⟨x, hx, hbeq⟩
    rw [beq_iff_eq] at hbeq
    exact hbeq ▸ List.mem_map_of_mem _ hx
  · intro hm
    obtain ⟨x, hx, rfl⟩ := List.mem_map.mp hm
    exact ⟨x, hx, beq_iff_eq.mpr rfl⟩

theorem lookupv_not_mem {d : List (String × Value)} {k : String}
    (h : k ∉ d.map Prod.fst) : lookupv d k = none := by
  unfold lookupv
  cases hf : d.find? fun q => q.1 == k with
  | none => rfl
  | some p =>
    exact absurd (keyFind_isSome_iff.mp (by rw [hf]; rfl)) h

theorem lookupv_cons_self {d : List (String × Value)} {k : String}
    {v : Value} : lookupv ((k, v) :: d) k = some v := by
  unfold lookupv
  rw [List.find?_cons_of_pos (p := fun q : String × Value => q.1 == k) _
    (by simp)]

theorem lookupv_cons_ne {d : List (String × Value)} {k0 k : String}
    {v0 : Value} (h : k0 ≠ k) : lookupv ((k0, v0) :: d) k = lookupv d k := by
  unfold lookupv
  rw [List.find?_cons_of_neg (p := fun q : String × Value => q.1 == k) _
    (by simp [h])]

theorem lookupv_append_right {d1 d2 : List (String × Value)} {k : String}
    (h : k ∉ d1.map Prod.fst) : lookupv (d1 ++ d2) k = lookupv d2 k := by
  unfold lookupv
  rw [List.find?_append]
  have h1 : d1.find? (fun q => q.1 == k) = none := by
    cases hf : d1.find? fun q => q.1 == k with
    | none => rfl
    | some p => exact absurd (keyFind_isSome_iff.mp (by rw [hf]; rfl)) h
  rw [h1]
  rfl

theorem pyDictSetV_not_mem {d : List (String × Value)} {k : String}
    {v : Value} (h : k ∉ d.map Prod.fst) :
    pyDictSetV d k v = d ++ [(k, v)] := by
  unfold pyDictSetV
  rw [if_neg (by
    intro hcon
    exact h (keyFind_isSome_iff.mp hcon))]

theorem pyDictOf_from_acc {pairs : List (String × Value)} :
    ∀ {acc : List (String × Value)},
    (∀ k ∈ pairs.map Prod.fst, k ∉ acc.map Prod.fst) →
    (pairs.map Prod.fst).Nodup →
    pairs.foldl (fun a p => pyDictSetV a p.1 p.2) acc = acc ++ pairs := by
  induction pairs with
  | nil => intro acc _ _; simp
  | cons p rest ih =>
    intro acc hdisj hnodup
    rw [List.map_cons] at hdisj hnodup
    have hnd := List.nodup_cons.mp hnodup
    simp only [List.foldl_cons]
    rw [pyDictSetV_not_mem (hdisj p.1 (List.mem_cons_self _ _))]
    rw [@ih (acc ++ [(p.1, p.2)]) ?hd hnd.2]
    · simp
    case hd =>
      intro k hk
      rw [List.map_append]
      intro hmem
      rcases List.mem_append.mp hmem with hacc | hsing
      · exact hdisj k (List.mem_cons_of_mem _ hk) hacc
      · simp only [List.map_cons, List.map_nil, List.mem_singleton] at hsing
        exact hnd.1 (hsing ▸ hk)

theorem pyDictOf_nodup {pairs : List (String × Value)}
    (h : (pairs.map Prod.fst).Nodup) : pyDictOf pairs = pairs := by
  unfold pyDictOf
  rw [pyDictOf_from_acc (by simp) h]
  rfl

/-- C9 amended: a row dict of `to_bag` over a frame whose sanitised column
names avoid the reserved `id` and `resource` keys has exactly the keys
`id`, the stripped dot-sanitised column names, and `resource`; its `id`
entry holds the row index; and its `resource` entry holds the row's `path`
column value when a column sanitises to `path`, else the string `"None"`
(from `str(None)`, as `to_bag` passes no default path).  A mapped column
named `id` or `resource` instead overwrites those entries. -/
theorem c9_row_dict_shape (df : DF) (index : List Value) (i : Nat)
    (hi : i < df.nrows)
    (hnd : (sanitizedKeys df).Nodup)
    (hid : ID ∉ sanitizedKeys df)
    (hres : RESOURCE ∉ sanitizedKeys df) :
    ∃ d, (dsToBag df index).get? i = some d ∧
      d.map Prod.fst = ID :: sanitizedKeys df ++ [RESOURCE] ∧
      lookupv d ID = some ((index.get? i).getD .na) ∧
      (df.cols.find? (fun c => pyReplaceDotUnderscore (pyStrip c.1) ==
          PATH_COLUMN_NAME) = none →
        lookupv d RESOURCE = some (.prim "None")) ∧
      (∀ cpath, df.cols.find? (fun c => pyReplaceDotUnderscore (pyStrip c.1) ==
          PATH_COLUMN_NAME) = some cpath →
        lookupv d RESOURCE = some ((cpath.2.get? i).getD .na)) := by
  have hrange : (List.range df.nrows).get? i = some i := by
    rw [List.get?_eq_getElem?]
    exact List.getElem?_range hi
  -- the zipped column pairs of this row
  have hzip : List.zip ((df.cols.map fun c => pyStrip c.1).map
        fun c => pyReplaceDotUnderscore c)
        (df.cols.map fun c => (c.2.get? i).getD .na) =
      df.cols.map fun c => (pyReplaceDotUnderscore (pyStrip c.1),
        (c.2.get? i).getD .na) := by
    rw [List.map_map, List.zip_map']
    rfl
  have hzipkeys : (df.cols.map fun c => (pyReplaceDotUnderscore (pyStrip c.1),
      (c.2.get? i).getD .na)).map Prod.fst = sanitizedKeys df := by
    rw [List.map_map]
    rfl
  have hdict : _row2dict ((index.get? i).getD .na)
      (df.cols.map fun c => (c.2.get? i).getD .na)
      (df.cols.map fun c => pyStrip c.1) none =
      ((ID, (index.get? i).getD .na) ::
        df.cols.map fun c => (pyReplaceDotUnderscore (pyStrip c.1),
          (c.2.get? i).getD .na)) ++
      [(RESOURCE, (lookupv (df.cols.map fun c =>
          (pyReplaceDotUnderscore (pyStrip c.1), (c.2.get? i).getD .na))
          PATH_COLUMN_NAME).getD (.prim "None"))] := by
    unfold _row2dict
    simp only [hzip]
    have hkeys : ((ID, (index.get? i).getD .na) ::
        df.cols.map fun c => (pyReplaceDotUnderscore (pyStrip c.1),
          (c.2.get? i).getD .na)).map Prod.fst =
        ID :: sanitizedKeys df := by
      rw [List.map_cons, hzipkeys]
    have hd0 : pyDictOf ((ID, (index.get? i).getD .na) ::
        df.cols.map fun c => (pyReplaceDotUnderscore (pyStrip c.1),
          (c.2.get? i).getD .na)) =
        (ID, (index.get? i).getD .na) ::
        df.cols.map fun c => (pyReplaceDotUnderscore (pyStrip c.1),
          (c.2.get? i).getD .na) := by
      apply pyDictOf_nodup
      rw [hkeys]
      exact List.nodup_cons.mpr ⟨hid, hnd⟩
    rw [hd0]
    have hresid : RESOURCE ≠ ID := by decide
    have hreskeys : RESOURCE ∉ ((ID, (index.get? i).getD .na) ::
        df.cols.map fun c => (pyReplaceDotUnderscore (pyStrip c.1),
          (c.2.get? i).getD .na)).map Prod.fst := by
      rw [hkeys]
      intro hmem
      rcases List.mem_cons.mp hmem with he | hmem2
      · exact hresid he
      · exact hres hmem2
    rw [pyDictSetV_not_mem hreskeys, lookupv_not_mem hreskeys]
    have hpathid : PATH_COLUMN_NAME ≠ ID := by decide
    rw [lookupv_cons_ne (fun he => hpathid he.symm)]
    rfl
  refine ⟨((ID, (index.get? i).getD .na) ::
      df.cols.map fun c => (pyReplaceDotUnderscore (pyStrip c.1),
        (c.2.get? i).getD .na)) ++
      [(RESOURCE, (lookupv (df.cols.map fun c =>
        (pyReplaceDotUnderscore (pyStrip c.1), (c.2.get? i).getD .na))
        PATH_COLUMN_NAME).getD (.prim "None"))], ?_, ?_, ?_, ?_, ?_⟩
  · unfold dsToBag
    simp only []
    rw [List.get?_map, hrange]
    simp only [Option.map_some']
    rw [hdict]
  · rw [List.map_append, List.map_cons, hzipkeys]
    rfl
  · rw [show (((ID, (index.get? i).getD .na) ::
      df.cols.map fun c => (pyReplaceDotUnderscore (pyStrip c.1),
        (c.2.get? i).getD .na)) ++ [(RESOURCE, (lookupv (df.cols.map fun c =>
      (pyReplaceDotUnderscore (pyStrip c.1), (c.2.get? i).getD .na))
      PATH_COLUMN_NAME).getD (.prim "None"))]) =
      (ID, (index.get? i).getD .na) ::
      ((df.cols.map fun c => (pyReplaceDotUnderscore (pyStrip c.1),
        (c.2.get? i).getD .na)) ++ [(RESOURCE, (lookupv (df.cols.map fun c =>
      (pyReplaceDotUnderscore (pyStrip c.1), (c.2.get? i).getD .na))
      PATH_COLUMN_NAME).getD (.prim "None"))]) from rfl]
    exact lookupv_cons_self
  · intro hnone
    have hpathmem : PATH_COLUMN_NAME ∉ sanitizedKeys df := by
      intro hmem
      unfold sanitizedKeys at hmem
      obtain ⟨c, hc, hceq⟩ := List.mem_map.mp hmem
      have : (df.cols.find? fun c => pyReplaceDotUnderscore (pyStrip c.1) ==
          PATH_COLUMN_NAME).isSome = true := by
        rw [show ((df.cols.find? fun c => pyReplaceDotUnderscore (pyStrip c.1)
          == PATH_COLUMN_NAME).isSome = true) ↔ (df.cols.find? fun c =>
          pyReplaceDotUnderscore (pyStrip c.1) ==
          PATH_COLUMN_NAME).isSome from by simp]
        rw [List.find?_isSome]
        exact ⟨c, hc, beq_iff_eq.mpr hceq⟩
      rw [hnone] at this
      cases this
    have hlz : lookupv (df.cols.map fun c =>
        (pyReplaceDotUnderscore (pyStrip c.1), (c.2.get? i).getD .na))
        PATH_COLUMN_NAME = none := by
      apply lookupv_not_mem
      rw [hzipkeys]
      exact hpathmem
    rw [lookupv_append_right (by
      rw [List.map_cons, hzipkeys]
      intro hmem
      rcases List.mem_cons.mp hmem with he | hm2
      · exact (show RESOURCE ≠ ID by decide) he
      · exact hres hm2)]
    rw [hlz]
    simp only [Option.getD_none]
    exact lookupv_cons_self
  · intro cpath hfind
    have hlz : lookupv (df.cols.map fun c =>
        (pyReplaceDotUnderscore (pyStrip c.1), (c.2.get? i).getD .na))
        PATH_COLUMN_NAME = some ((cpath.2.get? i).getD .na) := by
      unfold lookupv
      rw [List.find?_map]
      rw [show ((fun q : String × Value => q.1 == PATH_COLUMN_NAME) ∘
        fun c : String × List Value => (pyReplaceDotUnderscore (pyStrip c.1),
          (c.2.get? i).getD .na)) =
        (fun c : String × List Value => pyReplaceDotUnderscore (pyStrip c.1)
          == PATH_COLUMN_NAME) from funext fun x => rfl]
      rw [hfind]
      rfl
    rw [lookupv_append_right (by
      rw [List.map_cons, hzipkeys]
      intro hmem
      rcases List.mem_cons.mp hmem with he | hm2
      · exact (show RESOURCE ≠ ID by decide) he
      · exact hres hm2)]
    rw [hlz]
    simp only [Option.getD_some]
    exact lookupv_cons_self

/-- Witness for `c9_row_dict_shape`: a frame with a dotted, padded column
name and a `path` column. -/
theorem c9_witness :
    ∃ d, (dsToBag ⟨1, [(" a.b ", [.prim "v"]), ("path", [.prim "p.csv"])]⟩
        [.prim "0"]).get? 0 = some d ∧
      d.map Prod.fst = ID :: sanitizedKeys
        ⟨1, [(" a.b ", [.prim "v"]), ("path", [.prim "p.csv"])]⟩ ++
        [RESOURCE] ∧
      lookupv d ID = some (([Value.prim "0"].get? 0).getD .na) ∧
      ((DF.cols ⟨1, [(" a.b ", [.prim "v"]), ("path", [.prim "p.csv"])]⟩).find?
          (fun c => pyReplaceDotUnderscore (pyStrip c.1) ==
            PATH_COLUMN_NAME) = none →
        lookupv d RESOURCE = some (.prim "None")) ∧
      (∀ cpath,
        (DF.cols ⟨1, [(" a.b ", [.prim "v"]), ("path", [.prim "p.csv"])]⟩).find?
          (fun c => pyReplaceDotUnderscore (pyStrip c.1) ==
            PATH_COLUMN_NAME) = some cpath →
        lookupv d RESOURCE = some ((cpath.2.get? 0).getD .na)) :=
  c9_row_dict_shape ⟨1, [(" a.b ", [.prim "v"]), ("path", [.prim "p.csv"])]⟩
    [.prim "0"] 0 (by decide) (by decide) (by decide) (by decide)

/-- Witness for `c2_skipped_row_raises` at a concrete table. -/
theorem c2_witness :
    ([Value.vlist [.dict [("b", .prim "2")]], .na].length = 2 ∧
      classify [Value.vlist [.dict [("b", .prim "2")]], .na] = CClass.clist ∧
      applyDictToList [Value.vlist [.dict [("b", .prim "2")]], .na] =
        .ok [some [("b", .vlist [.prim "2"])], none] ∧
      (∃ o ∈ [some [("b", Value.vlist [.prim "2"])], none], keptPivot o = false) ∧
      (∃ o ∈ [some [("b", Value.vlist [.prim "2"])], none], keptPivot o = true)) ∧
    flatten_dataframe ⟨2, [("d", [Value.vlist [.dict [("b", .prim "2")]], .na])]⟩ =
      .error (.valueError "Shape of passed values does not match indices") :=
  ⟨⟨by rfl, by decide, by rfl, ⟨none, by simp, by rfl⟩,
    ⟨some [("b", .vlist [.prim "2"])], by simp, by rfl⟩⟩,
    c2_skipped_row_raises "d" [Value.vlist [.dict [("b", .prim "2")]], .na] 2
      [some [("b", .vlist [.prim "2"])], none] (by rfl) (by decide) (by rfl)
      ⟨none, by simp, by rfl⟩ ⟨some [("b", .vlist [.prim "2"])], by simp, by rfl⟩⟩

end BiomeData
